import Mathlib

/-
Verification of the streaming load-tester (src/stream_test_enhanced.py).

Modelling conventions, stated once here:
* Response bytes are modeled as characters: the code treats the stream as
  byte-transparent and all delimiters it inspects are single ASCII bytes,
  so a byte stream is a `List Char` and a chunked stream a `List (List Char)`.
* Wall-clock readings (`time.time()`) are modeled by an abstract sequence
  `clk : Nat → Rat`, consumed in program order; callers that need real-clock
  facts assume monotonicity explicitly.
* Python floats are modeled as rationals; JSON numbers keep their lexeme.
* `print` statements are modeled as no-ops (they only render values).
* Python truthiness is modeled explicitly wherever the source relies on it
  (`if self.end_time:` is false for `None` and for `0.0`).
-/

/-- Python values as produced by `json.loads` (numbers keep their source
lexeme, which is all this program ever does with them). -/
inductive PyVal where
  | none_ : PyVal
  | bool : Bool → PyVal
  | num : String → PyVal
  | str : String → PyVal
  | list : List PyVal → PyVal
  | dict : List (String × PyVal) → PyVal

/-- Lookup in a Python dict built from JSON (first match; keys are unique by
construction, see `dictSet`). Models `d.get(k)` / `k in d`. -/
def dictGet (kvs : List (String × PyVal)) (k : String) : Option PyVal :=
  match kvs with
  | [] => none
  | (k', v) :: rest => if k' = k then some v else dictGet rest k

/-- Insert-or-overwrite preserving first-insertion position, the behaviour of
`d[k] = v` on a Python dict (duplicate JSON keys: last value wins). -/
def dictSet (kvs : List (String × PyVal)) (k : String) (v : PyVal) :
    List (String × PyVal) :=
  match kvs with
  | [] => [(k, v)]
  | (k', v') :: rest =>
      if k' = k then (k', v) :: rest else (k', v') :: dictSet rest k v

/-- The opening curly brace character (written via its code point). -/
def lbraceC : Char := Char.ofNat 123

/-- The closing curly brace character (written via its code point). -/
def rbraceC : Char := Char.ofNat 125

/-- Single-quote character (written via its code point). -/
def squoteC : Char := Char.ofNat 39

/-- JSON insignificant whitespace. -/
def jsonWs (c : Char) : Bool :=
  c = ' ' || c = '\t' || c = '\n' || c = '\r'

/-- Drop leading JSON whitespace. -/
def skipJsonWs : List Char → List Char
  | [] => []
  | c :: rest => if jsonWs c then skipJsonWs rest else c :: rest

/-- Split a leading run of decimal digits. -/
def takeDigits : List Char → List Char × List Char
  | [] => ([], [])
  | c :: rest =>
      if c.isDigit then
        let p := takeDigits rest
        (c :: p.1, p.2)
      else ([], c :: rest)

/-- Consume the literal token `tok`, returning the remainder. -/
def stripTok : List Char → List Char → Option (List Char)
  | [], s => some s
  | t :: ts, c :: cs => if c = t then stripTok ts cs else none
  | _ :: _, [] => none

/-- JSON integer part: `0` or a nonzero digit followed by digits. -/
def parseIntPart : List Char → Option (List Char × List Char)
  | [] => none
  | c :: rest =>
      if c = '0' then some (['0'], rest)
      else if c.isDigit then
        let p := takeDigits rest
        some (c :: p.1, p.2)
      else none

/-- Optional JSON fraction part (`.` requires at least one digit). -/
def parseFracPart : List Char → Option (List Char × List Char)
  | '.' :: rest =>
      match takeDigits rest with
      | ([], _) => none
      | (ds, r) => some ('.' :: ds, r)
  | s => some ([], s)

/-- Optional JSON exponent part. -/
def parseExpPart : List Char → Option (List Char × List Char)
  | [] => some ([], [])
  | c :: rest =>
      if c = 'e' || c = 'E' then
        match rest with
        | s :: rest2 =>
            if s = '+' || s = '-' then
              match takeDigits rest2 with
              | ([], _) => none
              | (ds, r) => some (c :: s :: ds, r)
            else
              match takeDigits rest with
              | ([], _) => none
              | (ds, r) => some (c :: ds, r)
        | [] => none
      else some ([], c :: rest)

/-- A JSON number token (Python's `json.loads` additionally accepts
`NaN`, `Infinity` and `-Infinity`); returns the lexeme. -/
def parseNumTok (s : List Char) : Option (String × List Char) :=
  let core : List Char → Option (List Char × List Char) := fun t =>
    match parseIntPart t with
    | none => none
    | some (ip, r1) =>
        match parseFracPart r1 with
        | none => none
        | some (fp, r2) =>
            match parseExpPart r2 with
            | none => none
            | some (ep, r3) => some (ip ++ fp ++ ep, r3)
  match s with
  | '-' :: rest =>
      match rest with
      | 'I' :: _ =>
          (stripTok "Infinity".toList rest).map (fun r => ("-Infinity", r))
      | _ =>
          (core rest).map (fun p => (String.mk ('-' :: p.1), p.2))
  | _ =>
      match s with
      | 'N' :: rest => (stripTok "aN".toList rest).map (fun r => ("NaN", r))
      | 'I' :: rest =>
          (stripTok "nfinity".toList rest).map (fun r => ("Infinity", r))
      | _ => (core s).map (fun p => (String.mk p.1, p.2))

/-- Hex digit value. -/
def hexVal (c : Char) : Option Nat :=
  if c.isDigit then some (c.toNat - 48)
  else if 'a' ≤ c && c ≤ 'f' then some (c.toNat - 97 + 10)
  else if 'A' ≤ c && c ≤ 'F' then some (c.toNat - 65 + 10)
  else none

/-- JSON string body (after the opening quote), accumulator-based.
`\uXXXX` escapes become the corresponding code point (surrogate pairing is
not recombined; no claim depends on it). Raw control characters are
rejected, as in strict `json.loads`. -/
def parseJsonStrAux : List Char → List Char → Option (String × List Char)
  | _, [] => none
  | acc, c :: rest =>
      if c = '"' then some (String.mk acc.reverse, rest)
      else if c = '\\' then
        match rest with
        | [] => none
        | e :: r2 =>
            if e = '"' then parseJsonStrAux ('"' :: acc) r2
            else if e = '\\' then parseJsonStrAux ('\\' :: acc) r2
            else if e = '/' then parseJsonStrAux ('/' :: acc) r2
            else if e = 'b' then parseJsonStrAux (Char.ofNat 8 :: acc) r2
            else if e = 'f' then parseJsonStrAux (Char.ofNat 12 :: acc) r2
            else if e = 'n' then parseJsonStrAux ('\n' :: acc) r2
            else if e = 'r' then parseJsonStrAux ('\r' :: acc) r2
            else if e = 't' then parseJsonStrAux ('\t' :: acc) r2
            else if e = 'u' then
              match r2 with
              | h1 :: h2 :: h3 :: h4 :: r3 =>
                  match hexVal h1, hexVal h2, hexVal h3, hexVal h4 with
                  | some a, some b, some c', some d =>
                      parseJsonStrAux
                        (Char.ofNat (((a * 16 + b) * 16 + c') * 16 + d) :: acc) r3
                  | _, _, _, _ => none
              | _ => none
            else none
      else if c.toNat < 32 then none
      else parseJsonStrAux (c :: acc) rest

/-- JSON string token, after the opening quote has been consumed. -/
def parseJsonStr (s : List Char) : Option (String × List Char) :=
  parseJsonStrAux [] s

mutual

/-- Recursive-descent JSON value parser (fuel-indexed; `jsonParse` supplies
fuel that covers any input, see the bound there). -/
def parseJsonVal : Nat → List Char → Option (PyVal × List Char)
  | 0, _ => none
  | fuel + 1, s0 =>
    let s := skipJsonWs s0
    match s with
    | [] => none
    | c :: rest =>
        if c = '"' then
          (parseJsonStr rest).map (fun p => (PyVal.str p.1, p.2))
        else if c = '[' then
          let r1 := skipJsonWs rest
          match r1 with
          | ']' :: r2 => some (PyVal.list [], r2)
          | _ => parseJsonItems fuel r1 []
        else if c = lbraceC then
          let r1 := skipJsonWs rest
          match r1 with
          | [] => none
          | c2 :: r2 =>
              if c2 = rbraceC then some (PyVal.dict [], r2)
              else parseJsonMembers fuel r1 []
        else if c = 't' then
          (stripTok "rue".toList rest).map (fun r => (PyVal.bool true, r))
        else if c = 'f' then
          (stripTok "alse".toList rest).map (fun r => (PyVal.bool false, r))
        else if c = 'n' then
          (stripTok "ull".toList rest).map (fun r => (PyVal.none_, r))
        else if c = '-' || c.isDigit || c = 'N' || c = 'I' then
          (parseNumTok s).map (fun p => (PyVal.num p.1, p.2))
        else none

/-- JSON array elements (after `[` and leading whitespace, non-empty case). -/
def parseJsonItems : Nat → List Char → List PyVal →
    Option (PyVal × List Char)
  | 0, _, _ => none
  | fuel + 1, s, acc =>
      match parseJsonVal fuel s with
      | none => none
      | some (v, r1) =>
          let r2 := skipJsonWs r1
          match r2 with
          | ']' :: r3 => some (PyVal.list (acc ++ [v]), r3)
          | ',' :: r3 => parseJsonItems fuel r3 (acc ++ [v])
          | _ => none

/-- JSON object members (after the opening brace and leading whitespace,
non-empty case). Duplicate keys follow Python dict update semantics. -/
def parseJsonMembers : Nat → List Char → List (String × PyVal) →
    Option (PyVal × List Char)
  | 0, _, _ => none
  | fuel + 1, s, acc =>
      match s with
      | c :: rest =>
          if c = '"' then
            match parseJsonStr rest with
            | none => none
            | some (k, r1) =>
                match skipJsonWs r1 with
                | ':' :: r2 =>
                    match parseJsonVal fuel r2 with
                    | none => none
                    | some (v, r3) =>
                        let acc' := dictSet acc k v
                        match skipJsonWs r3 with
                        | c2 :: r4 =>
                            if c2 = rbraceC then some (PyVal.dict acc', r4)
                            else if c2 = ',' then
                              parseJsonMembers fuel (skipJsonWs r4) acc'
                            else none
                        | [] => none
                | _ => none
          else none
      | [] => none

end

/-- Model of `json.loads`: parse one value and insist on whitespace-only
remainder. The fuel `2·|s| + 8` dominates the recursion depth: at least one
input character separates every other nested call. -/
def jsonParse (s : String) : Option PyVal :=
  match parseJsonVal (2 * s.length + 8) s.toList with
  | some (v, rest) => if skipJsonWs rest = [] then some v else none
  | none => none

/-- Does `s` start with `needle`? (byte-wise). -/
def startsWithList : List Char → List Char → Bool
  | [], _ => true
  | _ :: _, [] => false
  | a :: more, b :: rest => a = b && startsWithList more rest

/-- Substring occurrence test, modelling Python's `in` on strings/bytes. -/
def isSubListOf (needle : List Char) (hay : List Char) : Bool :=
  startsWithList needle hay ||
    match hay with
    | [] => false
    | _ :: rest => isSubListOf needle rest

/-- Python `strip()` on a byte string: drop ASCII whitespace from both
ends (structural, so concrete runs reduce in the kernel). -/
def pyStrip (l : List Char) : List Char :=
  ((l.dropWhile Char.isWhitespace).reverse.dropWhile
    Char.isWhitespace).reverse

/-- One decoded SSE event: the dict built by `parse_sse_line` /
`parse_sse_stream`. Each field models the presence (and value) of the
corresponding dict key; `data_json` may be present with value `None`
(`json.loads("null")`), hence `Option PyVal` with `PyVal.none_`. -/
structure SSEDict where
  event : Option String := none
  data : Option String := none
  data_json : Option PyVal := none
  id : Option String := none
  retry : Option String := none

/-- `if event_data:` — a Python dict is falsy iff it has no keys. -/
def SSEDict.isEmpty (d : SSEDict) : Bool :=
  d.event.isNone && d.data.isNone && d.data_json.isNone &&
    d.id.isNone && d.retry.isNone

/-- `old.update(new)`: keys present in `new` overwrite those of `old`.
Note a `data:` line that fails JSON parsing does not carry a `data_json`
key, so a previously parsed `data_json` survives such an update. -/
def SSEDict.update (old new : SSEDict) : SSEDict :=
  { event := new.event.or old.event
    data := new.data.or old.data
    data_json := new.data_json.or old.data_json
    id := new.id.or old.id
    retry := new.retry.or old.retry }

/-- `SSEParser.parse_sse_line`: decode + strip one line, then dispatch on
the `event:` / `data:` / `id:` / `retry:` prefixes; an empty or
unrecognized line yields no dict (`return result if result else None`). -/
def parse_sse_line (line : List Char) : Option SSEDict :=
  let line_str := pyStrip line
  if line_str.isEmpty then none
  else if startsWithList "event:".toList line_str then
    some { event := some (String.mk (pyStrip (line_str.drop 6))) }
  else if startsWithList "data:".toList line_str then
    let data_str := String.mk (pyStrip (line_str.drop 5))
    some { data := some data_str, data_json := jsonParse data_str }
  else if startsWithList "id:".toList line_str then
    some { id := some (String.mk (pyStrip (line_str.drop 3))) }
  else if startsWithList "retry:".toList line_str then
    some { retry := some (String.mk (pyStrip (line_str.drop 6))) }
  else none

/-- `event_block.split(b'\n')` — split on every newline (Python `split`
semantics: `n` separators produce `n+1` pieces). -/
def splitOnNl : List Char → List (List Char)
  | [] => [[]]
  | c :: rest =>
      if c = '\n' then [] :: splitOnNl rest
      else
        match splitOnNl rest with
        | l :: ls => (c :: l) :: ls
        | [] => [[c]]

/-- Parse the lines of one event block into a dict, skipping blank lines
and merging recognized lines left to right (`event_data.update(parsed)`). -/
def parseBlockLines (lines : List (List Char)) : SSEDict :=
  lines.foldl
    (fun acc line =>
      if (pyStrip line).isEmpty then acc
      else
        match parse_sse_line line with
        | some p => SSEDict.update acc p
        | none => acc)
    {}

/-- `buffer.split(b'\n\n', 1)` guarded by `b'\n\n' in buffer`: locate the
first double-newline; return the block before it and the remainder after
it, or `none` when there is no double newline. -/
def splitFirst : List Char → Option (List Char × List Char)
  | [] => none
  | c :: rest =>
      if c = '\n' && rest.headD ' ' = '\n' then some ([], rest.tail)
      else
        match splitFirst rest with
        | some (blk, r) => some (c :: blk, r)
        | none => none

/-- Fuel-indexed engine of the `while b'\n\n' in buffer:` loop (structural
recursion so that concrete runs reduce in the kernel); each extraction
strictly shortens the buffer, so `sseSplitFold`'s fuel always suffices. -/
def sseSplitFoldF {σ : Type} (step : σ → List Char → σ) :
    Nat → List Char → σ → List Char × σ
  | 0, buf, st => (buf, st)
  | fuel + 1, buf, st =>
      match splitFirst buf with
      | none => (buf, st)
      | some (blk, rest) => sseSplitFoldF step fuel rest (step st blk)

/-- The `while b'\n\n' in buffer:` loop shared by `parse_sse_stream` and
`make_request`: repeatedly extract one complete event block and feed it to
`step`, returning the final (double-newline-free) buffer and state. -/
def sseSplitFold {σ : Type} (step : σ → List Char → σ)
    (buf : List Char) (st : σ) : List Char × σ :=
  sseSplitFoldF step (buf.length + 1) buf st

/-- `parse_sse_stream`'s per-block action: parse the block's lines and
append the event when the resulting dict is non-empty. -/
def parse_sse_stream_step (events : List SSEDict) (blk : List Char) :
    List SSEDict :=
  let event_data := parseBlockLines (splitOnNl blk)
  if event_data.isEmpty then events else events ++ [event_data]

/-- One `async for chunk in stream` iteration of `parse_sse_stream`:
skip empty chunks, else append to the buffer and drain complete blocks.
State is `(decoded events, pending buffer)`. -/
def parse_sse_feed (st : List SSEDict × List Char) (chunk : List Char) :
    List SSEDict × List Char :=
  if chunk.isEmpty then st
  else
    let p := sseSplitFold parse_sse_stream_step (st.2 ++ chunk) st.1
    (p.2, p.1)

/-- `SSEParser.parse_sse_stream`: fold all chunks, then parse any non-blank
remainder as a final (possibly incomplete) event. -/
def parse_sse_stream (chunks : List (List Char)) : List SSEDict :=
  let fin := chunks.foldl parse_sse_feed ([], [])
  let events := fin.1
  let buffer := fin.2
  if (pyStrip buffer).isEmpty then events
  else
    let current_event := parseBlockLines (splitOnNl buffer)
    if current_event.isEmpty then events else events ++ [current_event]

/-- Truthiness of an `Optional[float]`: `None` and `0.0` are falsy. -/
def truthyTime (o : Option Rat) : Bool :=
  match o with
  | none => false
  | some t => decide (t ≠ 0)

/-- Truthiness of an `Optional[str]`: `None` and `""` are falsy. -/
def truthyOptStr (o : Option String) : Bool :=
  match o with
  | none => false
  | some s => !s.isEmpty

/-- Is a JSON number lexeme zero (all mantissa digits `0`)? Used for
truthiness; `NaN`/`Infinity` contain non-zero characters, hence truthy. -/
def numLexemeIsZero (s : String) : Bool :=
  let l :=
    match s.toList with
    | '-' :: r => r
    | l => l
  let mant := l.takeWhile (fun c => !(c = 'e' || c = 'E'))
  mant.all fun c => c = '0' || c = '.'

/-- Python truthiness of a JSON-derived value. -/
def pyTruthy : PyVal → Bool
  | .none_ => false
  | .bool b => b
  | .num s => !numLexemeIsZero s
  | .str s => !s.isEmpty
  | .list xs => !xs.isEmpty
  | .dict kvs => !kvs.isEmpty

/-- Python `==` between a JSON-derived value and a `str` constant: equal
only when the value is that string (cross-type equality is `False`). -/
def pyEqStr (v : PyVal) (s : String) : Bool :=
  match v with
  | .str t => t = s
  | _ => false

/-- `RequestMetrics` dataclass. -/
structure RequestMetrics where
  request_id : Nat
  start_time : Rat
  response_headers_time : Option Rat := none
  first_token_time : Option Rat := none
  end_time : Option Rat := none
  total_tokens : Nat := 0
  total_bytes : Nat := 0
  error : Option String := none
  events : List SSEDict := []

/-- `RequestMetrics.ttft` (note the truthiness test on the stored time). -/
def RequestMetrics.ttft (m : RequestMetrics) : Option Rat :=
  if truthyTime m.first_token_time then
    some (m.first_token_time.getD 0 - m.start_time)
  else none

/-- `RequestMetrics.total_time` (note the truthiness test on `end_time`). -/
def RequestMetrics.total_time (m : RequestMetrics) : Option Rat :=
  if truthyTime m.end_time then some (m.end_time.getD 0 - m.start_time)
  else none

/-- `RequestMetrics.tokens_per_second`:
`if self.total_time and self.total_time > 0` then divide, else `None`. -/
def RequestMetrics.tokens_per_second (m : RequestMetrics) : Option Rat :=
  match m.total_time with
  | some t => if t ≠ 0 ∧ t > 0 then some ((m.total_tokens : Rat) / t) else none
  | none => none

/-- `RequestConfig` dataclass (the fields the tester reads). -/
structure RequestConfig where
  url : String := ""
  method : String := "POST"
  headers : List (String × String) := []
  body : PyVal := PyVal.dict []
  timeout : Nat := 300
  data_rows : Option (List (List (String × String))) := none
  stream_format : Option String := none
  first_token_event : Option String := none
  completion_event : Option String := none
  output_path : Option String := none

/-- The `for key in keys` loop of `extract_value`. -/
def extract_value_go : List String → PyVal → PyVal
  | [], v => v
  | k :: ks, v =>
      match v with
      | .dict kvs =>
          match dictGet kvs k with
          | none => .none_
          | some .none_ => .none_
          | some v' => extract_value_go ks v'
      | _ => .none_

/-- `SSEParser.extract_value`: walk a dot-separated key path through nested
dicts; any missing key, `None` value, or non-dict intermediate yields
Python `None` (modeled as `PyVal.none_`). -/
def extract_value (data : PyVal) (path : String) : PyVal :=
  extract_value_go (path.splitOn ".") data

/-- Spec reading of `extract_value` (§ "returns None whenever any key along
the path is missing, maps to None, or the intermediate value reached is not
a dictionary; otherwise the value found at the end of the path"), written
independently with explicit failure as `Option`. -/
def followPath : PyVal → List String → Option PyVal
  | v, [] => some v
  | .dict kvs, k :: ks =>
      match dictGet kvs k with
      | some .none_ => none
      | some w => followPath w ks
      | none => none
  | _, _ :: _ => none

mutual

/-- Python `str()` of a JSON-derived value, used only to render error
excerpts. Approximations (documented): float lexemes are not re-canonicalized
and `repr` of strings assumes no embedded quotes/backslashes; no claim
depends on these corners. -/
def pyRepr (v : PyVal) : String :=
  match v with
  | .none_ => "None"
  | .bool b => if b then "True" else "False"
  | .num s => s
  | .str s => String.mk (squoteC :: s.toList ++ [squoteC])
  | .list xs => "[" ++ String.intercalate ", " (pyReprList xs) ++ "]"
  | .dict kvs =>
      String.mk [lbraceC] ++
        String.intercalate ", " (pyReprKVs kvs) ++ String.mk [rbraceC]

/-- `repr` of the elements of a list. -/
def pyReprList : List PyVal → List String
  | [] => []
  | v :: rest => pyRepr v :: pyReprList rest

/-- `repr` of the entries of a dict. -/
def pyReprKVs : List (String × PyVal) → List String
  | [] => []
  | (k, v) :: rest =>
      (String.mk (squoteC :: k.toList ++ [squoteC]) ++ ": " ++ pyRepr v) ::
        pyReprKVs rest

end

/-- `str(error_msg[:200])` when the slice succeeds (`str` and `list` are
sliceable), `none` when `[:200]` raises `TypeError`. -/
def pySliceStr200 : PyVal → Option String
  | .str s => some (s.take 200)
  | .list xs => some ("[" ++ String.intercalate ", "
      (pyReprList (xs.take 200)) ++ "]")
  | _ => none

/-- The `TypeError` message raised by `v[:200]` on a non-sliceable value. -/
def sliceTypeError (v : PyVal) : String :=
  match v with
  | .none_ => String.mk (squoteC :: "NoneType".toList ++ [squoteC]) ++
      " object is not subscriptable"
  | .bool _ => String.mk (squoteC :: "bool".toList ++ [squoteC]) ++
      " object is not subscriptable"
  | .num s =>
      let kind := if isSubListOf ['.'] s.toList || isSubListOf ['e'] s.toList
          || isSubListOf ['E'] s.toList || isSubListOf ['n'] s.toList
          || isSubListOf ['N'] s.toList then "float" else "int"
      String.mk (squoteC :: kind.toList ++ [squoteC]) ++
        " object is not subscriptable"
  | _ => "unhashable type: " ++ String.mk (squoteC :: "slice".toList ++ [squoteC])

/-- The exceptions `make_request` distinguishes. -/
inductive PyExc where
  | timeoutError : PyExc
  | serverTimeout : String → PyExc
  | clientConnector : String → PyExc
  | other : String → PyExc

/-- What the network does for one request: an exception before any response,
or a response with a status, an error-body text (read only when the status
is not 200), the streamed body chunks, and an optional exception raised
after those chunks were delivered. -/
inductive NetOutcome where
  | raised : PyExc → NetOutcome
  | response : Nat → String → List (List Char) → Option PyExc → NetOutcome

/-- `"timeout" in str(e).lower() or "timed out" in str(e).lower()`. -/
def containsTimeoutWord (msg : String) : Bool :=
  isSubListOf "timeout".toList msg.toLower.toList ||
    isSubListOf "timed out".toList msg.toLower.toList

/-- The `metric.error` string written by each `except` clause. -/
def excMsg (timeout : Nat) : PyExc → String
  | .timeoutError => "Timeout (>" ++ toString timeout ++ "s)"
  | .serverTimeout m => "Server Timeout: " ++ m
  | .clientConnector m =>
      if containsTimeoutWord m then "Connection Timeout: " ++ m
      else "Connection Error: " ++ m
  | .other m => m

/-- The `error_msg` computed in the non-200 branch: `json.loads` the body;
on a dict take `.get('message', error_body)`; any other parse result (or a
parse failure) raises/`except`s back to the raw body text. -/
def non200ErrorMsgVal (error_body : String) : PyVal :=
  match jsonParse error_body with
  | some (PyVal.dict kvs) =>
      match dictGet kvs "message" with
      | some v => v
      | none => PyVal.str error_body
  | _ => PyVal.str error_body

/-- The `metric.error` string of the non-200 branch, including the path in
which `error_msg[:200]` raises `TypeError` and the outer handler formats
`HTTP {status} (无法读取错误信息: {e})`. -/
def non200Error (status : Nat) (error_body : String) : String :=
  let error_msg := non200ErrorMsgVal error_body
  match pySliceStr200 error_msg with
  | some s => "HTTP " ++ toString status ++ ": " ++ s
  | none =>
      "HTTP " ++ toString status ++ " (无法读取错误信息: " ++
        sliceTypeError error_msg ++ ")"

/-- Loop state of the SSE branch of `make_request`. `k` is the index of the
next `time.time()` reading. -/
structure SSELoopState where
  events : List SSEDict := []
  first_token_found : Bool := false
  first_event_time : Option Rat := none
  event_count : Nat := 0
  ftt : Option Rat := none
  total_bytes : Nat := 0
  k : Nat := 2

/-- The effective event type: prefer `data_json['event']` when `data_json`
is a dict containing that key (Dify format), else the SSE `event:` field,
else `''`. The result is a `PyVal` because `data_json['event']` need not be
a string. -/
def eventTypeOf (ed : SSEDict) : PyVal :=
  match ed.data_json with
  | some (PyVal.dict kvs) =>
      match dictGet kvs "event" with
      | some v => v
      | none =>
          match ed.event with
          | some s => PyVal.str s
          | none => PyVal.str ""
  | _ =>
      match ed.event with
      | some s => PyVal.str s
      | none => PyVal.str ""

/-- Processing of one drained event block inside `make_request`'s SSE loop:
append the event, read the first-event clock once, and set
`first_token_time` on the first matching (or, unconfigured, first
type-truthy) event. The completion-event branch only logs and is omitted
(prints are no-ops). -/
def procEvent (ftev : Option String) (clk : Nat → Rat)
    (st : SSELoopState) (ed : SSEDict) : SSELoopState :=
  if ed.isEmpty then st
  else
    let st := { st with events := st.events ++ [ed],
                        event_count := st.event_count + 1 }
    let et := eventTypeOf ed
    let st :=
      if st.event_count = 1 ∧ st.first_token_found = false then
        { st with first_event_time := some (clk st.k), k := st.k + 1 }
      else st
    if st.first_token_found = false then
      if truthyOptStr ftev then
        if pyEqStr et (ftev.getD "") then
          { st with ftt := some (clk st.k), k := st.k + 1,
                    first_token_found := true }
        else st
      else if pyTruthy et then
        { st with ftt := some (clk st.k), k := st.k + 1,
                  first_token_found := true }
      else st
    else st

/-- Per-block step of the SSE loop: parse the block's lines, then process. -/
def sseStep (ftev : Option String) (clk : Nat → Rat)
    (st : SSELoopState) (blk : List Char) : SSELoopState :=
  procEvent ftev clk st (parseBlockLines (splitOnNl blk))

/-- One `async for chunk` iteration of the SSE branch: skip empty chunks,
else extend the buffer, count the bytes, and drain complete blocks. -/
def sseChunkStep (ftev : Option String) (clk : Nat → Rat)
    (p : List Char × SSELoopState) (chunk : List Char) :
    List Char × SSELoopState :=
  if chunk.isEmpty then p
  else
    let st := { p.2 with total_bytes := p.2.total_bytes + chunk.length }
    sseSplitFold (sseStep ftev clk) (p.1 ++ chunk) st

/-- Remainder handling after the SSE loop: a non-blank leftover buffer is
parsed as one final event and appended when non-empty. -/
def sseRemainder (p : List Char × SSELoopState) : SSELoopState :=
  let buffer := p.1
  let st := p.2
  if (pyStrip buffer).isEmpty then st
  else
    let current_event := parseBlockLines (splitOnNl buffer)
    if current_event.isEmpty then st
    else { st with events := st.events ++ [current_event],
                   event_count := st.event_count + 1 }

/-- First-token fallback after the SSE loop: when no first-token event was
found, use the (truthy) first-event time, else — if any event exists — the
current clock. -/
def sseFallback (clk : Nat → Rat) (st : SSELoopState) : SSELoopState :=
  if st.first_token_found then st
  else if truthyTime st.first_event_time then
    { st with ftt := st.first_event_time }
  else if st.events.isEmpty then st
  else { st with ftt := some (clk st.k), k := st.k + 1 }

/-- The SSE branch of `make_request` (status 200). On a mid-stream
exception the locals `events`/`chunk_count` are lost — only fields already
written to `metric` (first-token time, byte count) survive, and
`metric.events` / `total_tokens` keep their defaults. -/
def sseBranch (cfg : RequestConfig) (rid : Nat) (chunks : List (List Char))
    (tail : Option PyExc) (clk : Nat → Rat) : RequestMetrics :=
  let p := chunks.foldl (sseChunkStep cfg.first_token_event clk)
    (([] : List Char), ({ } : SSELoopState))
  match tail with
  | some e =>
      { request_id := rid, start_time := clk 0,
        response_headers_time := some (clk 1),
        first_token_time := p.2.ftt, total_bytes := p.2.total_bytes,
        error := some (excMsg cfg.timeout e), end_time := some (clk p.2.k) }
  | none =>
      let st := sseFallback clk (sseRemainder p)
      { request_id := rid, start_time := clk 0,
        response_headers_time := some (clk 1),
        first_token_time := st.ftt, total_bytes := st.total_bytes,
        events := st.events, end_time := some (clk st.k),
        total_tokens := st.events.length }

/-- Loop state of the raw branch of `make_request`. (The `buffer` local is
kept by the source only for the `[DONE]` log line and is not modeled.) -/
structure RawLoopState where
  stream_started : Bool := false
  ftt : Option Rat := none
  chunk_count : Nat := 0
  total_bytes : Nat := 0
  k : Nat := 2

/-- One `async for chunk` iteration of the raw branch. -/
def rawChunkStep (clk : Nat → Rat) (st : RawLoopState) (chunk : List Char) :
    RawLoopState :=
  if chunk.isEmpty then st
  else
    let st :=
      if st.stream_started then st
      else { st with stream_started := true, ftt := some (clk st.k),
                     k := st.k + 1 }
    { st with chunk_count := st.chunk_count + 1,
              total_bytes := st.total_bytes + chunk.length }

/-- The raw branch of `make_request` (status 200, non-SSE). As in the SSE
branch, `total_tokens` is only written after a clean loop exit. -/
def rawBranch (cfg : RequestConfig) (rid : Nat) (chunks : List (List Char))
    (tail : Option PyExc) (clk : Nat → Rat) : RequestMetrics :=
  let st := chunks.foldl (rawChunkStep clk) ({ } : RawLoopState)
  match tail with
  | some e =>
      { request_id := rid, start_time := clk 0,
        response_headers_time := some (clk 1),
        first_token_time := st.ftt, total_bytes := st.total_bytes,
        error := some (excMsg cfg.timeout e), end_time := some (clk st.k) }
  | none =>
      { request_id := rid, start_time := clk 0,
        response_headers_time := some (clk 1),
        first_token_time := st.ftt, total_bytes := st.total_bytes,
        total_tokens := st.chunk_count, end_time := some (clk st.k) }

/-- `StreamTester.make_request`: clock call 0 is `start_time`; an exception
at request time jumps to its handler (which stamps `end_time`); a non-200
status reads the error body and returns without streaming; otherwise clock
call 1 is `response_headers_time` and the configured branch consumes the
stream. -/
def make_request (cfg : RequestConfig) (rid : Nat) (net : NetOutcome)
    (clk : Nat → Rat) : RequestMetrics :=
  match net with
  | .raised e =>
      { request_id := rid, start_time := clk 0,
        error := some (excMsg cfg.timeout e), end_time := some (clk 1) }
  | .response status body chunks tail =>
      if status ≠ 200 then
        { request_id := rid, start_time := clk 0,
          error := some (non200Error status body), end_time := some (clk 1) }
      else if cfg.stream_format = some "sse" then
        sseBranch cfg rid chunks tail clk
      else
        rawBranch cfg rid chunks tail clk

/-- Python `s.replace(needle, repl)` for a non-empty needle: replace every
(left-to-right, non-overlapping) occurrence. -/
def pyReplaceAux (needle repl : List Char) : List Char → List Char
  | [] => []
  | c :: rest =>
      if startsWithList needle (c :: rest) && !needle.isEmpty then
        repl ++ pyReplaceAux needle repl ((c :: rest).drop needle.length)
      else c :: pyReplaceAux needle repl rest
termination_by s => s.length
decreasing_by
  · rename_i hpre
    simp only [List.length_drop, List.length_cons]
    have hlen : 0 < needle.length := by
      cases needle with
      | nil => simp at hpre
      | cons a l => simp
    omega
  · simp

/-- Python `s.replace(needle, repl)` including the empty-needle case
(never hit here: placeholders always contain the four braces). -/
def pyReplace (s needle repl : List Char) : List Char :=
  if needle.isEmpty then
    repl ++ s.flatMap (fun c => c :: repl)
  else pyReplaceAux needle repl s

/-- One `for key, value in row_data.items()` iteration of
`_replace_placeholders` on a string: build the placeholder
`{{key}}` and, if present, replace all its occurrences by the value
(CSV rows carry string values, so `str(value)` is the value itself). -/
def replaceOneHolder (r : List Char) (kv : String × String) : List Char :=
  let placeholder := [lbraceC, lbraceC] ++ kv.1.toList ++ [rbraceC, rbraceC]
  if isSubListOf placeholder r then pyReplace r placeholder kv.2.toList
  else r

mutual

/-- `StreamTester._replace_placeholders`: strings get placeholder
substitution, dicts and lists recurse, everything else is unchanged. -/
def replace_placeholders (row : List (String × String)) : PyVal → PyVal
  | .str s => .str (String.mk (row.foldl replaceOneHolder s.toList))
  | .dict kvs => .dict (replaceKVs row kvs)
  | .list xs => .list (replaceItems row xs)
  | v => v

/-- Recursion of `_replace_placeholders` through list elements. -/
def replaceItems (row : List (String × String)) : List PyVal → List PyVal
  | [] => []
  | x :: xs => replace_placeholders row x :: replaceItems row xs

/-- Recursion of `_replace_placeholders` through dict values. -/
def replaceKVs (row : List (String × String)) :
    List (String × PyVal) → List (String × PyVal)
  | [] => []
  | (k, v) :: rest => (k, replace_placeholders row v) :: replaceKVs row rest

end

/-- `StreamTester._get_request_body`: with truthy `data_rows`, request `i`
(1-based) uses row `(i-1) % len(rows)`; the `json.dumps`/`loads` deep copy
is the identity on JSON-shaped values and is modeled as such. -/
def get_request_body (cfg : RequestConfig) (request_id : Nat) : PyVal :=
  match cfg.data_rows with
  | some rows =>
      if rows.isEmpty then cfg.body
      else
        let row_index := (request_id - 1) % rows.length
        let row_data := rows.getD row_index []
        replace_placeholders row_data cfg.body
  | none => cfg.body

/-- The percentile expression of `print_report`:
`sorted(xs)[int(len(xs) * f)]` — ascending stable sort (Python `sorted`),
index `int(len * f)` (truncation = floor on the non-negative products used
here). Out-of-range indexing is modeled by `getD _ 0`; the percentile
theorem shows the index is in range for the report's thresholds. -/
def percentileReported (xs : List Rat) (f : Rat) : Rat :=
  (List.insertionSort (· ≤ ·) xs).getD
    (Int.toNat ⌊(xs.length : Rat) * f⌋) 0

/-- The fixed TTFT sample of the percentile test property. -/
def ratSample : List Rat := [1, 2, 3, 4, 5, 6, 7, 8, 9, 10]

/-- Worker status in the run/worker pool: about to acquire the semaphore;
holding it and about to `queue.get()`; executing request `rid`; or exited
after consuming a sentinel. -/
inductive WStatus where
  | start : WStatus
  | acquired : WStatus
  | running : Nat → WStatus
  | finished : WStatus
deriving DecidableEq

/-- Shared state of `StreamTester.run`: the FIFO work queue (`none` is the
sentinel), one status per worker, free semaphore slots, and the collected
metrics list. -/
structure RunState where
  queue : List (Option Nat)
  ws : List WStatus
  sem : Nat
  metrics : List RequestMetrics

/-- Initial state of `run`: identifiers `1..N` followed by one sentinel per
worker; `C` idle workers; all `C` semaphore slots free; no metrics. -/
def initState (N C : Nat) : RunState :=
  { queue := (List.range N).map (fun j => some (j + 1)) ++
      List.replicate C none
    ws := List.replicate C WStatus.start
    sem := C
    metrics := [] }

/-- Interleaving semantics of the worker pool. Code between two `await`s is
atomic: acquiring the semaphore, popping the queue head, and (after
`make_request` returns) appending the metric + releasing are the three
scheduling points of `StreamTester.worker`. `exec` abstracts what
`make_request` returns for an identifier. -/
inductive RunStep (exec : Nat → RequestMetrics) : RunState → RunState → Prop
  | acquire (s : RunState) (i : Nat)
      (h : s.ws[i]? = some WStatus.start) (hs : 0 < s.sem) :
      RunStep exec s
        { s with sem := s.sem - 1, ws := s.ws.set i WStatus.acquired }
  | getSome (s : RunState) (i rid : Nat) (rest : List (Option Nat))
      (h : s.ws[i]? = some WStatus.acquired) (hq : s.queue = some rid :: rest) :
      RunStep exec s
        { s with queue := rest, ws := s.ws.set i (WStatus.running rid) }
  | getNone (s : RunState) (i : Nat) (rest : List (Option Nat))
      (h : s.ws[i]? = some WStatus.acquired) (hq : s.queue = none :: rest) :
      RunStep exec s
        { s with queue := rest, ws := s.ws.set i WStatus.finished,
                 sem := s.sem + 1 }
  | complete (s : RunState) (i rid : Nat)
      (h : s.ws[i]? = some (WStatus.running rid)) :
      RunStep exec s
        { s with metrics := s.metrics ++ [exec rid],
                 ws := s.ws.set i WStatus.start, sem := s.sem + 1 }

/-- All workers have consumed their sentinel and exited — the state in
which `run`'s `gather` completes. -/
def allFinished (s : RunState) : Prop :=
  ∀ w ∈ s.ws, w = WStatus.finished

/-- Count of real work items left in the queue. -/
def someCount (q : List (Option Nat)) : Nat := q.countP Option.isSome

/-- Count of sentinels left in the queue. -/
def noneCount (q : List (Option Nat)) : Nat := q.countP Option.isNone

/-- Is a worker mid-request? -/
def isRunningW : WStatus → Bool
  | .running _ => true
  | _ => false

/-- Count of workers mid-request. -/
def runningCount (ws : List WStatus) : Nat := ws.countP isRunningW

/-- Count of exited workers. -/
def finishedCount (ws : List WStatus) : Nat :=
  ws.countP (fun w => w = WStatus.finished)

/-- FIFO shape of the queue: all real identifiers precede all sentinels
(true initially and preserved since workers only pop the head). -/
def queueShape (q : List (Option Nat)) : Prop :=
  ∃ (ids : List Nat) (k : Nat), q = ids.map some ++ List.replicate k none

/-- The inductive invariant of the run: undispatched + in-flight +
collected = N; sentinels outstanding + workers exited = C; the queue keeps
its ids-then-sentinels shape; and once the sentinels are gone, so is all
real work. -/
def RunInv (N C : Nat) (s : RunState) : Prop :=
  someCount s.queue + runningCount s.ws + s.metrics.length = N ∧
  noneCount s.queue + finishedCount s.ws = C ∧
  s.ws.length = C ∧
  queueShape s.queue ∧
  (noneCount s.queue = 0 → someCount s.queue = 0)

/-- Inductive invariant of the SSE loop state: first-token time is present
exactly when the found-flag is set; every recorded time is a clock reading
no later than the next one; and with no decoded event there is neither a
first-event time nor a found flag. -/
def SSEInv (clk : Nat → Rat) (st : SSELoopState) : Prop :=
  (st.ftt.isSome = st.first_token_found) ∧
  (∀ v, st.ftt = some v → ∃ i, i ≤ st.k ∧ v = clk i) ∧
  (∀ v, st.first_event_time = some v → ∃ i, i ≤ st.k ∧ v = clk i) ∧
  (st.events = [] → st.first_event_time = none ∧ st.first_token_found = false)

/-- The spec sentence for `tokens_per_second` taken literally: `None` when
`end_time` is absent or end−start is not strictly positive, else the
quotient. (Compared against the code's truthiness-based guard.) -/
def tps_claimed (m : RequestMetrics) : Option Rat :=
  match m.end_time with
  | none => none
  | some e =>
      if e - m.start_time ≤ 0 then none
      else some ((m.total_tokens : Rat) / (e - m.start_time))

/-- The code's `tokens_per_second`, rephrased without Python truthiness:
additionally `None` when `end_time` is exactly `0`. -/
def tps_amended (m : RequestMetrics) : Option Rat :=
  match m.end_time with
  | none => none
  | some e =>
      if e = 0 then none
      else if e - m.start_time ≤ 0 then none
      else some ((m.total_tokens : Rat) / (e - m.start_time))

/-- A strictly increasing, positive concrete clock for witnesses. -/
def clkLin : Nat → Rat := fun i => (i : Rat) + 1

/-- A raw-mode configuration (all defaults). -/
def cfgRaw : RequestConfig := { }

/-- An SSE-mode configuration with no configured first-token event. -/
def cfgSSE : RequestConfig := { stream_format := some "sse" }

/-- The error body `{"message": 5}` (a JSON object whose `message` is an
integer — not sliceable). -/
def exBody : String :=
  String.mk ([lbraceC, '"'] ++ "message".toList ++ ['"', ':', ' ', '5', rbraceC])

/-- A `RequestMetrics` value with `end_time` exactly `0.0`. -/
def cexMetric : RequestMetrics :=
  { request_id := 1, start_time := -1, end_time := some 0, total_tokens := 5 }

/-- A two-line SSE event followed by its blank-line terminator. -/
def sseText : String :=
  "event: ping" ++ "\n" ++ "data: hi" ++ "\n" ++ "\n"

/-- `sseText` delivered one byte per chunk. -/
def sseChunksFine : List (List Char) := sseText.toList.map (fun c => [c])

/-- `sseText` delivered as a single chunk. -/
def sseChunksOne : List (List Char) := [sseText.toList]

/-- Bytes that decode to no SSE event (no delimiter, unrecognized line). -/
def junkChunk : List Char := "junk".toList

/-- A configuration with three data rows over one column `k`, and a body
that is exactly the placeholder for `k`. -/
def cfg3 : RequestConfig :=
  { body := PyVal.str (String.mk
      ([lbraceC, lbraceC] ++ "k".toList ++ [rbraceC, rbraceC]))
    data_rows := some [[("k", "a")], [("k", "b")], [("k", "c")]] }

/-- Concrete executor for the run witness: a raw-mode request against an
empty 200 response. -/
def c3exec : Nat → RequestMetrics := fun rid =>
  make_request cfgRaw rid (NetOutcome.response 200 "" [] none) clkLin

/-- Intermediate states of one concrete interleaving of a run with
`total_requests = 1`, `concurrency = 1`. -/
def c3s1 : RunState :=
  { queue := [some 1, none], ws := [WStatus.acquired], sem := 0, metrics := [] }

/-- After the worker dequeues identifier 1. -/
def c3s2 : RunState :=
  { queue := [none], ws := [WStatus.running 1], sem := 0, metrics := [] }

/-- After the worker appends the metric and releases the semaphore. -/
def c3s3 : RunState :=
  { queue := [none], ws := [WStatus.start], sem := 1, metrics := [c3exec 1] }

/-- After the worker re-acquires the semaphore. -/
def c3s4 : RunState :=
  { queue := [none], ws := [WStatus.acquired], sem := 0, metrics := [c3exec 1] }

/-- After the worker consumes the sentinel and exits. -/
def c3s5 : RunState :=
  { queue := [], ws := [WStatus.finished], sem := 1, metrics := [c3exec 1] }

/-- The first-token trigger test of `make_request`'s SSE loop: with a
truthy configured `first_token_event` the effective type must equal it;
otherwise any truthy effective type triggers. -/
def eventMatches (ftev : Option String) (ed : SSEDict) : Bool :=
  if truthyOptStr ftev then pyEqStr (eventTypeOf ed) (ftev.getD "")
  else pyTruthy (eventTypeOf ed)

/-- Clock-accounting invariant of the SSE loop: the found-flag is set iff
some decoded event triggered `eventMatches`; the first decoded event
consumed clock reading 2 (`first_event_time`), the first matching event
consumed reading 3 (`first_token_time`); `k` records exactly which
readings were consumed; the event counter tracks the list length. -/
def SSETrackInv (ftev : Option String) (clk : Nat → Rat)
    (st : SSELoopState) : Prop :=
  st.first_token_found = st.events.any (eventMatches ftev) ∧
  (st.first_token_found = true → st.ftt = some (clk 3)) ∧
  (st.first_token_found = false → st.ftt = none) ∧
  (st.events ≠ [] → st.first_event_time = some (clk 2) ∧
    st.k = (if st.first_token_found then 4 else 3)) ∧
  (st.events = [] → st.first_event_time = none ∧ st.k = 2) ∧
  st.event_count = st.events.length

/-- A concrete clock given by a literal table (kernel-computable values,
all nonzero), for witnesses that must evaluate clock comparisons. -/
def clkC : Nat → Rat := fun i =>
  match i with
  | 0 => 1
  | 1 => 2
  | 2 => 3
  | 3 => 4
  | _ => 5

/-- One chunk holding an untyped event (`data:` only) followed by a typed
event — the first arriving event has no type, the second does. -/
def sseUntypedThenTyped : List (List Char) :=
  [("data: hi" ++ "\n" ++ "\n" ++ "event: go" ++ "\n" ++ "\n").toList]

/-- An SSE-mode configuration whose `first_token_event` matches no event
of the test streams. -/
def cfgSSEX : RequestConfig :=
  { stream_format := some "sse", first_token_event := some "x" }

theorem splitFirst_some_length (l : List Char) :
    ∀ b r, splitFirst l = some (b, r) → r.length < l.length := by
  induction l with
  | nil => intro b r h; simp [splitFirst] at h
  | cons c rest ih =>
      intro b r h
      simp only [splitFirst] at h
      split at h
      · rename_i hc
        simp only [Option.some.injEq, Prod.mk.injEq] at h
        obtain ⟨hb, hr⟩ := h
        subst hr
        simp only [List.length_cons, List.length_tail]
        omega
      · cases hsf : splitFirst rest with
        | none => rw [hsf] at h; simp at h
        | some p =>
            rw [hsf] at h
            obtain ⟨blk, r2⟩ := p
            simp only [Option.some.injEq, Prod.mk.injEq] at h
            obtain ⟨hb, hr⟩ := h
            subst hr
            have := ih blk r2 hsf
            simp only [List.length_cons]
            omega


theorem splitFirst_cons (c : Char) (rest : List Char) :
    splitFirst (c :: rest) =
      if c = '\n' && rest.headD ' ' = '\n' then some ([], rest.tail)
      else
        match splitFirst rest with
        | some (blk, r) => some (c :: blk, r)
        | none => none := rfl

theorem splitFirst_append (l t : List Char) :
    ∀ b r, splitFirst l = some (b, r) →
      splitFirst (l ++ t) = some (b, r ++ t) := by
  induction l with
  | nil => intro b r h; simp [splitFirst] at h
  | cons c rest ih =>
      intro b r h
      cases rest with
      | nil => simp [splitFirst] at h
      | cons c2 rest2 =>
          rw [splitFirst_cons] at h
          rw [List.cons_append, List.cons_append, splitFirst_cons]
          simp only [List.headD_cons] at h ⊢
          split at h
          · rename_i hcond
            rw [if_pos hcond]
            simp only [Option.some.injEq, Prod.mk.injEq, List.tail_cons] at h
            obtain ⟨hb, hr⟩ := h
            subst hb; subst hr
            simp
          · rename_i hcond
            rw [if_neg hcond]
            cases hsf : splitFirst (c2 :: rest2) with
              | none => rw [hsf] at h; simp at h
              | some p =>
                  obtain ⟨blk, r2⟩ := p
                  rw [hsf] at h
                  simp only [Option.some.injEq, Prod.mk.injEq] at h
                  obtain ⟨hb, hr⟩ := h
                  subst hb; subst hr
                  have hx := ih blk r2 hsf
                  rw [List.cons_append] at hx
                  rw [hx]

theorem sseSplitFoldF_congr {σ : Type} (step : σ → List Char → σ) :
    ∀ fuel fuel' (buf : List Char) (st : σ), buf.length < fuel →
      buf.length < fuel' →
      sseSplitFoldF step fuel buf st = sseSplitFoldF step fuel' buf st := by
  intro fuel
  induction fuel with
  | zero => intro fuel' buf st h h'; omega
  | succ n ih =>
      intro fuel' buf st h h'
      cases fuel' with
      | zero => omega
      | succ n' =>
          simp only [sseSplitFoldF]
          cases hsf : splitFirst buf with
          | none => rfl
          | some p =>
              obtain ⟨blk, rest⟩ := p
              have hlen := splitFirst_some_length buf blk rest hsf
              exact ih n' rest (step st blk) (by omega) (by omega)

theorem sseSplitFold_eq_none {σ : Type} (step : σ → List Char → σ)
    (buf : List Char) (st : σ) (h : splitFirst buf = none) :
    sseSplitFold step buf st = (buf, st) := by
  simp [sseSplitFold, sseSplitFoldF, h]

theorem sseSplitFold_eq_some {σ : Type} (step : σ → List Char → σ)
    (buf blk rest : List Char) (st : σ)
    (h : splitFirst buf = some (blk, rest)) :
    sseSplitFold step buf st = sseSplitFold step rest (step st blk) := by
  have hlen := splitFirst_some_length buf blk rest h
  show sseSplitFoldF step (buf.length + 1) buf st = _
  conv_lhs => rw [sseSplitFoldF]
  rw [h]
  exact sseSplitFoldF_congr step buf.length (rest.length + 1) rest
    (step st blk) (by omega) (by omega)

theorem sseSplitFold_append {σ : Type} (step : σ → List Char → σ) :
    ∀ (n : Nat) (a b : List Char) (st : σ), a.length ≤ n →
      sseSplitFold step (a ++ b) st =
        sseSplitFold step ((sseSplitFold step a st).1 ++ b)
          (sseSplitFold step a st).2 := by
  intro n
  induction n with
  | zero =>
      intro a b st ha
      have hnil : a = [] := by
        cases a with
        | nil => rfl
        | cons x xs => simp at ha
      subst hnil
      rw [sseSplitFold_eq_none step [] st rfl]
  | succ n ih =>
      intro a b st ha
      cases hsf : splitFirst a with
      | none =>
          rw [sseSplitFold_eq_none step a st hsf]
      | some p =>
          obtain ⟨blk, rest⟩ := p
          have hlen := splitFirst_some_length a blk rest hsf
          rw [sseSplitFold_eq_some step a blk rest st hsf]
          rw [sseSplitFold_eq_some step (a ++ b) blk (rest ++ b) st
            (splitFirst_append a b blk rest hsf)]
          exact ih rest b (step st blk) (by omega)

theorem parse_sse_feed_append (st : List SSEDict × List Char)
    (c1 c2 : List Char) :
    parse_sse_feed (parse_sse_feed st c1) c2 = parse_sse_feed st (c1 ++ c2) := by
  obtain ⟨ev, buf⟩ := st
  by_cases h1 : c1.isEmpty = true
  · have : c1 = [] := by
      cases c1 with
      | nil => rfl
      | cons x xs => simp at h1
    subst this
    simp [parse_sse_feed]
  · by_cases h2 : c2.isEmpty = true
    · have : c2 = [] := by
        cases c2 with
        | nil => rfl
        | cons x xs => simp at h2
      subst this
      simp only [parse_sse_feed, if_neg h1, List.append_nil]
      rw [if_pos h2]
    · have h12 : ¬((c1 ++ c2).isEmpty = true) := by
        cases c1 with
        | nil => simp at h1
        | cons x xs => simp
      simp only [parse_sse_feed, if_neg h1, if_neg h2, if_neg h12]
      rw [← List.append_assoc]
      rw [sseSplitFold_append parse_sse_stream_step (buf ++ c1).length
        (buf ++ c1) c2 ev le_rfl]

theorem foldl_parse_sse_feed :
    ∀ (chunks : List (List Char)) (st : List SSEDict × List Char),
      chunks.foldl parse_sse_feed st = parse_sse_feed st chunks.flatten := by
  intro chunks
  induction chunks with
  | nil =>
      intro st
      simp [parse_sse_feed]
  | cons c cs ih =>
      intro st
      simp only [List.foldl_cons, List.flatten_cons]
      rw [ih, parse_sse_feed_append]

/-- C1: for every byte stream fed to the SSE decoder, splitting the same
bytes at different chunk boundaries yields the identical sequence of
decoded events — the decoded sequence is a function of the concatenated
bytes only. -/
theorem sse_decode_boundary_independent (cs1 cs2 : List (List Char))
    (h : cs1.flatten = cs2.flatten) :
    parse_sse_stream cs1 = parse_sse_stream cs2 := by
  unfold parse_sse_stream
  rw [foldl_parse_sse_feed, foldl_parse_sse_feed, h]

/-- C1 witness: one byte per chunk versus one whole-event chunk decode to
the same event sequence. -/
theorem sse_decode_boundary_independent_witness :
    sseChunksFine.flatten = sseChunksOne.flatten ∧
    parse_sse_stream sseChunksFine = parse_sse_stream sseChunksOne :=
  ⟨by decide,
   sse_decode_boundary_independent sseChunksFine sseChunksOne (by decide)⟩

/-- C10: `extract_value` is total and agrees with the spec's reading: it
returns Python `None` exactly when the independent `followPath` fails
(missing key, `None` value, or non-dict intermediate), and the found value
otherwise. -/
theorem extract_value_total_refines (data : PyVal) (path : String) :
    extract_value data path =
      match followPath data (path.splitOn ".") with
      | some v => v
      | none => PyVal.none_ := by
  unfold extract_value
  generalize path.splitOn "." = keys
  induction keys generalizing data with
  | nil => cases data <;> simp [extract_value_go, followPath]
  | cons k ks ih =>
      cases data with
      | dict kvs =>
          simp only [extract_value_go, followPath]
          cases hg : dictGet kvs k with
          | none => simp
          | some v =>
              cases v with
              | none_ => simp
              | bool b => simpa using ih (PyVal.bool b)
              | num s => simpa using ih (PyVal.num s)
              | str s => simpa using ih (PyVal.str s)
              | list xs => simpa using ih (PyVal.list xs)
              | dict kvs2 => simpa using ih (PyVal.dict kvs2)
      | none_ => simp [extract_value_go, followPath]
      | bool b => simp [extract_value_go, followPath]
      | num s => simp [extract_value_go, followPath]
      | str s => simp [extract_value_go, followPath]
      | list xs => simp [extract_value_go, followPath]

/-- C9 counterexample: at `end_time = 0.0` (a falsy float) the claimed
formula yields `total_tokens / (end−start) = 5` while the code returns
`None` — the claim's None-condition is not exactly the code's. -/
theorem tokens_per_second_claim_counterexample :
    cexMetric.end_time = some 0 ∧
    tps_claimed cexMetric = some 5 ∧
    cexMetric.tokens_per_second = none ∧
    cexMetric.tokens_per_second ≠ tps_claimed cexMetric := by
  have h1 : tps_claimed cexMetric = some 5 := by
    norm_num [tps_claimed, cexMetric]
  have h2 : cexMetric.tokens_per_second = none := by
    norm_num [RequestMetrics.tokens_per_second, RequestMetrics.total_time,
      truthyTime, cexMetric]
  refine ⟨rfl, h1, h2, by rw [h1, h2]; simp⟩

/-- C9 (amended): `tokens_per_second` never divides by zero — it returns
`None` whenever `end_time` is absent or exactly `0` (Python truthiness) or
`end_time − start_time` is not strictly positive, and otherwise returns
`total_tokens / (end_time − start_time)`. -/
theorem tokens_per_second_characterized (m : RequestMetrics) :
    m.tokens_per_second = tps_amended m := by
  cases he : m.end_time with
  | none =>
      simp [RequestMetrics.tokens_per_second, tps_amended,
        RequestMetrics.total_time, truthyTime, he]
  | some e =>
      by_cases h0 : e = 0
      · subst h0
        simp [RequestMetrics.tokens_per_second, tps_amended,
          RequestMetrics.total_time, truthyTime, he]
      · by_cases hle : e - m.start_time ≤ 0
        · have h1 : ¬ (e - m.start_time > 0) := not_lt.mpr hle
          simp [RequestMetrics.tokens_per_second, tps_amended,
            RequestMetrics.total_time, truthyTime, he, h0, hle, h1]
        · have h2 : e - m.start_time > 0 := lt_of_not_le hle
          have h3 : e - m.start_time ≠ 0 := ne_of_gt h2
          simp [RequestMetrics.tokens_per_second, tps_amended,
            RequestMetrics.total_time, truthyTime, he, h0, hle, h2, h3]

/-- C8: on every outcome of `make_request`, a set `error` comes with a set
`end_time` — every exception path stamps `end_time` before returning, so a
duration is computable for every failed request. -/
theorem error_implies_end_time (cfg : RequestConfig) (rid : Nat)
    (net : NetOutcome) (clk : Nat → Rat)
    (h : ((make_request cfg rid net clk).error).isSome = true) :
    ((make_request cfg rid net clk).end_time).isSome = true := by
  cases net with
  | raised e => simp [make_request]
  | response status body chunks tail =>
      by_cases hs : status = 200
      · subst hs
        simp only [make_request, ne_eq, not_true_eq_false, if_false,
          reduceIte]
        by_cases hf2 : cfg.stream_format = some "sse" <;>
          simp only [hf2, if_true, if_false, reduceIte] <;>
          cases tail <;>
          simp [sseBranch, rawBranch]
      · simp [make_request, hs]

/-- C8 witness: a timed-out request has both `error` and `end_time` set. -/
theorem error_implies_end_time_witness :
    ((make_request cfgRaw 1 (NetOutcome.raised PyExc.timeoutError)
      clkLin).error).isSome = true ∧
    ((make_request cfgRaw 1 (NetOutcome.raised PyExc.timeoutError)
      clkLin).end_time).isSome = true :=
  ⟨by decide,
   error_implies_end_time cfgRaw 1 (NetOutcome.raised PyExc.timeoutError)
     clkLin (by decide)⟩

/-- C6 (amended): a non-200 status is a terminal outcome: `error` is the
non-200 classification (which always begins `HTTP <code>`, and is exactly
`HTTP <code>: <message truncated to 200 chars>` whenever the extracted
message is textual); `end_time` is stamped; the unit count is zero;
`first_token_time` is absent; and the outcome is independent of the body
chunks and of any stream exception — no streaming is attempted. -/
theorem non200_terminal_outcome (cfg : RequestConfig) (rid status : Nat)
    (body : String) (chunks : List (List Char)) (tail : Option PyExc)
    (clk : Nat → Rat) (hs : status ≠ 200) :
    (make_request cfg rid (NetOutcome.response status body chunks tail)
        clk).error = some (non200Error status body) ∧
    (make_request cfg rid (NetOutcome.response status body chunks tail)
        clk).end_time = some (clk 1) ∧
    (make_request cfg rid (NetOutcome.response status body chunks tail)
        clk).total_tokens = 0 ∧
    (make_request cfg rid (NetOutcome.response status body chunks tail)
        clk).first_token_time = none ∧
    make_request cfg rid (NetOutcome.response status body chunks tail) clk =
      make_request cfg rid (NetOutcome.response status body [] none) clk ∧
    (∃ suffix, non200Error status body =
      "HTTP " ++ toString status ++ suffix) ∧
    (∀ s, non200ErrorMsgVal body = PyVal.str s →
      non200Error status body =
        "HTTP " ++ toString status ++ ": " ++ s.take 200) := by
  have hbr : make_request cfg rid
      (NetOutcome.response status body chunks tail) clk =
      { request_id := rid, start_time := clk 0,
        error := some (non200Error status body),
        end_time := some (clk 1) } := by
    simp [make_request, hs]
  have hbr2 : make_request cfg rid
      (NetOutcome.response status body [] none) clk =
      { request_id := rid, start_time := clk 0,
        error := some (non200Error status body),
        end_time := some (clk 1) } := by
    simp [make_request, hs]
  refine ⟨by rw [hbr], by rw [hbr], by rw [hbr], by rw [hbr],
    by rw [hbr, hbr2], ?_, ?_⟩
  · cases hp : pySliceStr200 (non200ErrorMsgVal body) with
    | some s =>
        refine ⟨": " ++ s, ?_⟩
        simp only [non200Error, hp]
        rw [String.append_assoc]
    | none =>
        refine ⟨" (无法读取错误信息: " ++
          sliceTypeError (non200ErrorMsgVal body) ++ ")", ?_⟩
        simp only [non200Error, hp]
        simp [String.append_assoc]
  · intro s hmsg
    simp only [non200Error, hmsg, pySliceStr200]

/-- C6 counterexample: for the body `{"message": 5}` the code's error is
the fallback `HTTP 500 (无法读取错误信息: 'int' object is not
subscriptable)` — it records the status code but carries no truncated body
excerpt (it does not even start with `HTTP 500: `). -/
theorem non200_excerpt_counterexample :
    (make_request cfgRaw 1 (NetOutcome.response 500 exBody [] none)
        clkLin).error =
      some ("HTTP 500 (无法读取错误信息: " ++
        String.mk (squoteC :: "int".toList ++ [squoteC]) ++
        " object is not subscriptable)") ∧
    startsWithList "HTTP 500: ".toList
      (((make_request cfgRaw 1 (NetOutcome.response 500 exBody [] none)
        clkLin).error.getD "").toList) = false := by
  refine ⟨by decide, by decide⟩

/-- C7: with a non-empty data-row list, the body for request `i` (1-based)
is produced from row `(i−1) mod row_count` — a pure function of the
identifier, hence independent of worker scheduling — the mapping is
periodic in the row count, and for `row_count = 3` identifiers 1..7 map to
row indices 0,1,2,0,1,2,0. -/
theorem data_row_mapping (cfg : RequestConfig)
    (rows : List (List (String × String))) (i : Nat)
    (hrows : cfg.data_rows = some rows) (hne : rows ≠ []) (hi : 1 ≤ i) :
    get_request_body cfg i =
      replace_placeholders (rows.getD ((i - 1) % rows.length) []) cfg.body ∧
    get_request_body cfg (i + rows.length) = get_request_body cfg i ∧
    [1, 2, 3, 4, 5, 6, 7].map (fun j => (j - 1) % 3) =
      [0, 1, 2, 0, 1, 2, 0] := by
  have hemp : rows.isEmpty = false := by
    cases rows with
    | nil => exact absurd rfl hne
    | cons x xs => rfl
  have hidx : (i + rows.length - 1) % rows.length = (i - 1) % rows.length := by
    have h1 : i + rows.length - 1 = (i - 1) + rows.length := by omega
    rw [h1, Nat.add_mod_right]
  refine ⟨?_, ?_, by decide⟩
  · simp [get_request_body, hrows, hemp]
  · simp [get_request_body, hrows, hemp, hidx]

/-- C7 witness: with the three concrete rows of `cfg3`, request 4 wraps
around to row index `(4−1) % 3 = 0` and the mapping is 3-periodic. -/
theorem data_row_mapping_witness :
    get_request_body cfg3 4 =
      replace_placeholders
        (([[("k", "a")], [("k", "b")], [("k", "c")]] :
            List (List (String × String))).getD
          ((4 - 1) %
            ([[("k", "a")], [("k", "b")], [("k", "c")]] :
              List (List (String × String))).length) [])
        cfg3.body ∧
    get_request_body cfg3
        (4 + ([[("k", "a")], [("k", "b")], [("k", "c")]] :
          List (List (String × String))).length) =
      get_request_body cfg3 4 :=
  ⟨(data_row_mapping cfg3 [[("k", "a")], [("k", "b")], [("k", "c")]] 4 rfl
      (by decide) (by decide)).1,
   (data_row_mapping cfg3 [[("k", "a")], [("k", "b")], [("k", "c")]] 4 rfl
      (by decide) (by decide)).2.1⟩

/-- C4: for every non-empty sample and every report threshold in
{0.50, 0.90, 0.95, 0.99}, the reported percentile expression
`sorted(xs)[int(len(xs)*f)]` selects the element at index `floor(f·n)` of
the ascending-sorted sample, an index that is already inside `[0, n−1]`
(so it coincides with the clamped index of the claim); in particular on
the sample `[1,…,10]`, P50 uses index 5 and returns the value 6. -/
theorem percentile_nearest_rank :
    (∀ (xs : List Rat) (f : Rat), xs ≠ [] →
      (f = 1/2 ∨ f = 9/10 ∨ f = 19/20 ∨ f = 99/100) →
      Int.toNat ⌊(xs.length : Rat) * f⌋ ≤ xs.length - 1 ∧
      percentileReported xs f =
        (List.insertionSort (fun a b => a ≤ b) xs).getD
          (min (Int.toNat ⌊f * (xs.length : Rat)⌋) (xs.length - 1)) 0) ∧
    Int.toNat ⌊(ratSample.length : Rat) * (1/2)⌋ = 5 ∧
    percentileReported ratSample (1/2) = 6 := by
  have hmain : ∀ (xs : List Rat) (f : Rat), xs ≠ [] →
      (f = 1/2 ∨ f = 9/10 ∨ f = 19/20 ∨ f = 99/100) →
      Int.toNat ⌊(xs.length : Rat) * f⌋ ≤ xs.length - 1 ∧
      percentileReported xs f =
        (List.insertionSort (fun a b => a ≤ b) xs).getD
          (min (Int.toNat ⌊f * (xs.length : Rat)⌋) (xs.length - 1)) 0 := by
    intro xs f hne hf
    have hn : 1 ≤ xs.length := by
      cases xs with
      | nil => exact absurd rfl hne
      | cons x l => simp
    have hf01 : 0 ≤ f ∧ f < 1 := by
      rcases hf with h | h | h | h <;> subst h <;> norm_num
    have hnpos : (0 : Rat) < (xs.length : Rat) := by
      exact_mod_cast hn
    have hprod : (xs.length : Rat) * f < (xs.length : Rat) := by
      calc (xs.length : Rat) * f < (xs.length : Rat) * 1 :=
            mul_lt_mul_of_pos_left hf01.2 hnpos
        _ = (xs.length : Rat) := mul_one _
    have hfl : ⌊(xs.length : Rat) * f⌋ < (xs.length : Int) := by
      apply Int.floor_lt.mpr
      exact_mod_cast hprod
    have hge : (0 : Int) ≤ ⌊(xs.length : Rat) * f⌋ :=
      Int.floor_nonneg.mpr (mul_nonneg (le_of_lt hnpos) hf01.1)
    have hcomm : ⌊f * (xs.length : Rat)⌋ = ⌊(xs.length : Rat) * f⌋ := by
      rw [mul_comm]
    constructor
    · omega
    · have hmin : min (Int.toNat ⌊f * (xs.length : Rat)⌋) (xs.length - 1) =
          Int.toNat ⌊(xs.length : Rat) * f⌋ := by
        rw [hcomm]; omega
      rw [hmin]
      rfl
  refine ⟨hmain, ?_, ?_⟩
  · have h5 : ((ratSample.length : Rat) * (1/2)) = 5 := by
      norm_num [ratSample]
    rw [h5]
    norm_num
    decide
  · have hidx : Int.toNat ⌊(ratSample.length : Rat) * (1/2)⌋ = 5 := by
      have h5 : ((ratSample.length : Rat) * (1/2)) = 5 := by
        norm_num [ratSample]
      rw [h5]; norm_num; decide
    unfold percentileReported
    rw [hidx]
    norm_num [ratSample, List.insertionSort, List.orderedInsert]

/-- C4 witness: the general nearest-rank statement applied to the fixed
sample `[1,…,10]` at threshold 0.50. -/
theorem percentile_nearest_rank_witness :
    ratSample ≠ [] ∧
    (Int.toNat ⌊(ratSample.length : Rat) * (1/2)⌋ ≤ ratSample.length - 1 ∧
     percentileReported ratSample (1/2) =
       (List.insertionSort (fun a b => a ≤ b) ratSample).getD
         (min (Int.toNat ⌊(1/2 : Rat) * (ratSample.length : Rat)⌋)
           (ratSample.length - 1)) 0) :=
  ⟨by simp [ratSample],
   percentile_nearest_rank.1 ratSample (1/2) (by simp [ratSample])
     (Or.inl rfl)⟩

theorem sseInv_init (clk : Nat → Rat) : SSEInv clk ({ } : SSELoopState) := by
  refine ⟨rfl, ?_, ?_, fun _ => ⟨rfl, rfl⟩⟩ <;>
    intro v hv <;> simp at hv

theorem sseInv_append (clk : Nat → Rat) (st : SSELoopState) (ed : SSEDict)
    (h : SSEInv clk st) :
    SSEInv clk { st with events := st.events ++ [ed],
                         event_count := st.event_count + 1 } := by
  obtain ⟨h1, h2, h3, h4⟩ := h
  exact ⟨h1, h2, h3, by simp⟩

theorem sseInv_set_fet (clk : Nat → Rat) (st : SSELoopState)
    (hne : st.events ≠ []) (h : SSEInv clk st) :
    SSEInv clk { st with first_event_time := some (clk st.k),
                         k := st.k + 1 } := by
  obtain ⟨h1, h2, h3, h4⟩ := h
  refine ⟨h1, ?_, ?_, fun hE => absurd hE hne⟩
  · intro v hv
    obtain ⟨i, hik, hvi⟩ := h2 v hv
    exact ⟨i, by show i ≤ st.k + 1; omega, hvi⟩
  · intro v hv
    have hv' : clk st.k = v := by simpa using hv
    exact ⟨st.k, by show st.k ≤ st.k + 1; omega, hv'.symm⟩

theorem sseInv_set_ftt (clk : Nat → Rat) (st : SSELoopState)
    (hne : st.events ≠ []) (h : SSEInv clk st) :
    SSEInv clk { st with ftt := some (clk st.k), k := st.k + 1,
                         first_token_found := true } := by
  obtain ⟨h1, h2, h3, h4⟩ := h
  refine ⟨rfl, ?_, ?_, fun hE => absurd hE hne⟩
  · intro v hv
    have hv' : clk st.k = v := by simpa using hv
    exact ⟨st.k, by show st.k ≤ st.k + 1; omega, hv'.symm⟩
  · intro v hv
    obtain ⟨i, hik, hvi⟩ := h3 v hv
    exact ⟨i, by show i ≤ st.k + 1; omega, hvi⟩

theorem procEvent_inv (ftev : Option String) (clk : Nat → Rat)
    (st : SSELoopState) (ed : SSEDict)
    (h : SSEInv clk st) : SSEInv clk (procEvent ftev clk st ed) := by
  unfold procEvent
  by_cases he : ed.isEmpty = true
  · rw [if_pos he]; exact h
  · rw [if_neg he]
    dsimp only
    have hA := sseInv_append clk st ed h
    have hne : (st.events ++ [ed]) ≠ [] := by simp
    split_ifs with hc1 hc2 hc3 hc4 hc5 hc6 hc7 <;>
      first
        | exact sseInv_set_ftt clk _ hne (sseInv_set_fet clk _ hne hA)
        | exact sseInv_set_fet clk _ hne hA
        | exact sseInv_set_ftt clk _ hne hA
        | exact hA

theorem sseSplitFold_preserves {σ : Type} (step : σ → List Char → σ)
    (P : σ → Prop) (hstep : ∀ st blk, P st → P (step st blk)) :
    ∀ (n : Nat) (buf : List Char) (st : σ), buf.length ≤ n → P st →
      P (sseSplitFold step buf st).2 := by
  intro n
  induction n with
  | zero =>
      intro buf st hb hP
      have hnil : buf = [] := by
        cases buf with
        | nil => rfl
        | cons x xs => simp at hb
      subst hnil
      rw [sseSplitFold_eq_none step [] st rfl]
      exact hP
  | succ n ih =>
      intro buf st hb hP
      cases hsf : splitFirst buf with
      | none =>
          rw [sseSplitFold_eq_none step buf st hsf]
          exact hP
      | some p =>
          obtain ⟨blk, rest⟩ := p
          rw [sseSplitFold_eq_some step buf blk rest st hsf]
          have hlen := splitFirst_some_length buf blk rest hsf
          exact ih rest (step st blk) (by omega) (hstep st blk hP)

theorem sseChunkStep_inv (ftev : Option String) (clk : Nat → Rat)
    (p : List Char × SSELoopState) (chunk : List Char)
    (h : SSEInv clk p.2) : SSEInv clk (sseChunkStep ftev clk p chunk).2 := by
  unfold sseChunkStep
  by_cases hc : chunk.isEmpty = true
  · rw [if_pos hc]; exact h
  · rw [if_neg hc]
    exact sseSplitFold_preserves (sseStep ftev clk) (SSEInv clk)
      (fun st blk hst => procEvent_inv ftev clk st _ hst)
      (p.1 ++ chunk).length (p.1 ++ chunk) _ le_rfl h

theorem foldl_sse_inv (ftev : Option String) (clk : Nat → Rat)
    (chunks : List (List Char)) :
    ∀ (p : List Char × SSELoopState), SSEInv clk p.2 →
      SSEInv clk (chunks.foldl (sseChunkStep ftev clk) p).2 := by
  induction chunks with
  | nil => intro p h; exact h
  | cons c cs ih =>
      intro p h
      exact ih (sseChunkStep ftev clk p c) (sseChunkStep_inv ftev clk p c h)

theorem sseTrack_init (ftev : Option String) (clk : Nat → Rat) :
    SSETrackInv ftev clk ({ } : SSELoopState) := by
  refine ⟨rfl, ?_, fun _ => rfl, fun h => absurd rfl h, fun _ => ⟨rfl, rfl⟩, rfl⟩
  intro hx
  exact absurd hx (by simp)

theorem procEvent_track (ftev : Option String) (clk : Nat → Rat)
    (st : SSELoopState) (ed : SSEDict)
    (h : SSETrackInv ftev clk st) :
    SSETrackInv ftev clk (procEvent ftev clk st ed) := by
  obtain ⟨h1, h2, h3, h4, h5, h6⟩ := h
  obtain ⟨evs, found, fet, cnt, ftt, tb, k⟩ := st
  dsimp only at h1 h2 h3 h4 h5 h6 ⊢
  unfold procEvent
  by_cases he : ed.isEmpty = true
  · rw [if_pos he]
    exact ⟨h1, h2, h3, h4, h5, h6⟩
  · rw [if_neg he]
    dsimp only
    subst h6
    by_cases hevs : evs = []
    · subst hevs
      have hfound : found = false := by simpa using h1
      subst hfound
      have hftt : ftt = none := h3 rfl
      subst hftt
      obtain ⟨hfet, hk⟩ := h5 rfl
      subst hfet
      subst hk
      simp only [List.length_nil, Nat.zero_add, eq_self_iff_true, and_self,
        if_true]
      split_ifs with hcfg hm hm2
      · exact ⟨by simp [eventMatches, hcfg, hm], fun _ => rfl,
          fun hx => absurd hx (by simp), fun _ => ⟨rfl, rfl⟩,
          fun hx => absurd hx (by simp), rfl⟩
      · exact ⟨by simp [eventMatches, hcfg, hm], fun hx => absurd hx (by simp),
          fun _ => rfl, fun _ => ⟨rfl, rfl⟩,
          fun hx => absurd hx (by simp), rfl⟩
      · exact ⟨by simp [eventMatches, hcfg, hm2], fun _ => rfl,
          fun hx => absurd hx (by simp), fun _ => ⟨rfl, rfl⟩,
          fun hx => absurd hx (by simp), rfl⟩
      · exact ⟨by simp [eventMatches, hcfg, hm2], fun hx => absurd hx (by simp),
          fun _ => rfl, fun _ => ⟨rfl, rfl⟩,
          fun hx => absurd hx (by simp), rfl⟩
    · obtain ⟨hfet, hk⟩ := h4 hevs
      subst hfet
      have hnc : ¬(List.length evs + 1 = 1 ∧ found = false) := by
        intro hx
        obtain ⟨hx1, _⟩ := hx
        exact hevs (List.length_eq_zero.mp (by omega))
      rw [if_neg hnc]
      by_cases hfound : found = true
      · subst hfound
        have hk4 : k = 4 := by simpa using hk
        subst hk4
        have hftt : ftt = some (clk 3) := h2 rfl
        subst hftt
        simp only [reduceIte]
        exact ⟨by simp [List.any_append, ← h1], fun _ => rfl,
          fun hx => absurd hx (by simp), fun _ => ⟨rfl, rfl⟩,
          fun hx => absurd hx (by simp), by simp⟩
      · have hf : found = false := by
          cases found
          · rfl
          · exact absurd rfl hfound
        subst hf
        have hk3 : k = 3 := by simpa using hk
        subst hk3
        have hftt : ftt = none := h3 rfl
        subst hftt
        simp only [reduceIte]
        split_ifs with hcfg hm hm2
        · exact ⟨by simp [List.any_append, ← h1, eventMatches, hcfg, hm],
            fun _ => rfl, fun hx => absurd hx (by simp),
            fun _ => ⟨rfl, rfl⟩, fun hx => absurd hx (by simp), by simp⟩
        · exact ⟨by simp [List.any_append, ← h1, eventMatches, hcfg, hm],
            fun hx => absurd hx (by simp), fun _ => rfl,
            fun _ => ⟨rfl, rfl⟩, fun hx => absurd hx (by simp), by simp⟩
        · exact ⟨by simp [List.any_append, ← h1, eventMatches, hcfg, hm2],
            fun _ => rfl, fun hx => absurd hx (by simp),
            fun _ => ⟨rfl, rfl⟩, fun hx => absurd hx (by simp), by simp⟩
        · exact ⟨by simp [List.any_append, ← h1, eventMatches, hcfg, hm2],
            fun hx => absurd hx (by simp), fun _ => rfl,
            fun _ => ⟨rfl, rfl⟩, fun hx => absurd hx (by simp), by simp⟩

theorem sseChunkStep_track (ftev : Option String) (clk : Nat → Rat)
    (p : List Char × SSELoopState) (chunk : List Char)
    (h : SSETrackInv ftev clk p.2) :
    SSETrackInv ftev clk (sseChunkStep ftev clk p chunk).2 := by
  unfold sseChunkStep
  by_cases hc : chunk.isEmpty = true
  · rw [if_pos hc]; exact h
  · rw [if_neg hc]
    refine sseSplitFold_preserves (sseStep ftev clk) (SSETrackInv ftev clk)
      (fun st blk hst => procEvent_track ftev clk st _ hst)
      (p.1 ++ chunk).length (p.1 ++ chunk) _ le_rfl ?_
    obtain ⟨h1, h2, h3, h4, h5, h6⟩ := h
    exact ⟨h1, h2, h3, h4, h5, h6⟩

theorem foldl_sse_track (ftev : Option String) (clk : Nat → Rat)
    (chunks : List (List Char)) :
    ∀ (p : List Char × SSELoopState), SSETrackInv ftev clk p.2 →
      SSETrackInv ftev clk (chunks.foldl (sseChunkStep ftev clk) p).2 := by
  induction chunks with
  | nil => intro p h; exact h
  | cons c cs ih =>
      intro p h
      exact ih (sseChunkStep ftev clk p c) (sseChunkStep_track ftev clk p c h)

theorem procEvent_frozen (ftev : Option String) (clk : Nat → Rat)
    (st : SSELoopState) (ed : SSEDict) (hf : st.first_token_found = true) :
    (procEvent ftev clk st ed).ftt = st.ftt ∧
    (procEvent ftev clk st ed).first_token_found = true := by
  unfold procEvent
  by_cases he : ed.isEmpty = true
  · rw [if_pos he]
    exact ⟨rfl, hf⟩
  · rw [if_neg he]
    dsimp only
    rw [if_neg (by simp [hf])]
    rw [if_neg (by simp [hf])]
    exact ⟨rfl, hf⟩

theorem sseChunkStep_frozen (ftev : Option String) (clk : Nat → Rat)
    (v : Rat) (p : List Char × SSELoopState) (chunk : List Char)
    (h : p.2.ftt = some v ∧ p.2.first_token_found = true) :
    (sseChunkStep ftev clk p chunk).2.ftt = some v ∧
    (sseChunkStep ftev clk p chunk).2.first_token_found = true := by
  unfold sseChunkStep
  by_cases hc : chunk.isEmpty = true
  · rw [if_pos hc]
    exact h
  · rw [if_neg hc]
    exact sseSplitFold_preserves (sseStep ftev clk)
      (fun st => st.ftt = some v ∧ st.first_token_found = true)
      (fun st blk hst => by
        have hfr := procEvent_frozen ftev clk st
          (parseBlockLines (splitOnNl blk)) hst.2
        exact ⟨hfr.1.trans hst.1, hfr.2⟩)
      (p.1 ++ chunk).length (p.1 ++ chunk) _ le_rfl ⟨h.1, h.2⟩

theorem foldl_sse_frozen (ftev : Option String) (clk : Nat → Rat)
    (v : Rat) (chunks : List (List Char)) :
    ∀ (p : List Char × SSELoopState),
      p.2.ftt = some v ∧ p.2.first_token_found = true →
      (chunks.foldl (sseChunkStep ftev clk) p).2.ftt = some v ∧
      (chunks.foldl (sseChunkStep ftev clk) p).2.first_token_found = true := by
  induction chunks with
  | nil => intro p h; exact h
  | cons c cs ih =>
      intro p h
      exact ih (sseChunkStep ftev clk p c)
        (sseChunkStep_frozen ftev clk v p c h)

theorem sseRemainder_fields (p : List Char × SSELoopState) :
    (sseRemainder p).ftt = p.2.ftt ∧
    (sseRemainder p).first_token_found = p.2.first_token_found ∧
    (sseRemainder p).first_event_time = p.2.first_event_time ∧
    (sseRemainder p).k = p.2.k ∧
    (p.2.events ≠ [] → (sseRemainder p).events ≠ []) ∧
    ((sseRemainder p).events = [] → p.2.events = []) := by
  unfold sseRemainder
  dsimp only
  split_ifs with hb hce
  · exact ⟨rfl, rfl, rfl, rfl, fun h => h, fun h => h⟩
  · exact ⟨rfl, rfl, rfl, rfl, fun h => h, fun h => h⟩
  · refine ⟨rfl, rfl, rfl, rfl, fun _ => by simp, fun h => ?_⟩
    exact absurd h (by simp)

theorem sseFallback_cases (clk : Nat → Rat) (st : SSELoopState) :
    (st.first_token_found = true → sseFallback clk st = st) ∧
    (st.first_token_found = false →
      truthyTime st.first_event_time = true →
      sseFallback clk st = { st with ftt := st.first_event_time }) ∧
    (st.first_token_found = false →
      truthyTime st.first_event_time = false → st.events = [] →
      sseFallback clk st = st) ∧
    (st.first_token_found = false →
      truthyTime st.first_event_time = false → st.events ≠ [] →
      sseFallback clk st =
        { st with ftt := some (clk st.k), k := st.k + 1 }) := by
  refine ⟨?_, ?_, ?_, ?_⟩
  · intro h1
    unfold sseFallback
    rw [if_pos h1]
  · intro h1 h2
    unfold sseFallback
    rw [if_neg (by simp [h1]), if_pos h2]
  · intro h1 h2 h3
    unfold sseFallback
    rw [if_neg (by simp [h1]), if_neg (by simp [h2]),
      if_pos (by simp [h3] : st.events.isEmpty = true)]
  · intro h1 h2 h3
    unfold sseFallback
    rw [if_neg (by simp [h1]), if_neg (by simp [h2]),
      if_neg (by simp [h3] : ¬st.events.isEmpty = true)]

theorem sseFallback_events (clk : Nat → Rat) (st : SSELoopState) :
    (sseFallback clk st).events = st.events := by
  unfold sseFallback
  split_ifs <;> rfl

theorem sse_policy_core (ftev : Option String) (clk : Nat → Rat)
    (hclk : clk 2 ≠ 0) (p : List Char × SSELoopState)
    (h : SSETrackInv ftev clk p.2) :
    (p.2.events.any (eventMatches ftev) = true →
      (sseFallback clk (sseRemainder p)).ftt = some (clk 3)) ∧
    (p.2.events.any (eventMatches ftev) = false → p.2.events ≠ [] →
      (sseFallback clk (sseRemainder p)).ftt = some (clk 2)) ∧
    (p.2.events = [] → (sseFallback clk (sseRemainder p)).events ≠ [] →
      (sseFallback clk (sseRemainder p)).ftt = some (clk 2)) ∧
    ((sseFallback clk (sseRemainder p)).events = [] →
      (sseFallback clk (sseRemainder p)).ftt = none) := by
  obtain ⟨t1, t2, t3, t4, t5, t6⟩ := h
  obtain ⟨r1, r2, r3, r4, r5, r6⟩ := sseRemainder_fields p
  obtain ⟨f1, f2, f3, f4⟩ := sseFallback_cases clk (sseRemainder p)
  refine ⟨?_, ?_, ?_, ?_⟩
  · intro hm
    have hfound : p.2.first_token_found = true := by rw [t1, hm]
    rw [f1 (by rw [r2]; exact hfound), r1]
    exact t2 hfound
  · intro hm hne
    have hfound : p.2.first_token_found = false := by rw [t1, hm]
    obtain ⟨hfet, _⟩ := t4 hne
    have htr : truthyTime (sseRemainder p).first_event_time = true := by
      rw [r3, hfet]
      simp [truthyTime, hclk]
    rw [f2 (by rw [r2]; exact hfound) htr]
    dsimp only
    rw [r3, hfet]
  · intro hSe hRne
    have hfound : p.2.first_token_found = false := by rw [t1, hSe]; rfl
    obtain ⟨hfet, hk⟩ := t5 hSe
    have htr : truthyTime (sseRemainder p).first_event_time = false := by
      rw [r3, hfet]; rfl
    have hRne' : (sseRemainder p).events ≠ [] := by
      rw [← sseFallback_events clk (sseRemainder p)]
      exact hRne
    rw [f4 (by rw [r2]; exact hfound) htr hRne']
    dsimp only
    rw [r4, hk]
  · intro hFe
    have hRe : (sseRemainder p).events = [] := by
      rw [← sseFallback_events clk (sseRemainder p)]
      exact hFe
    have hSe := r6 hRe
    have hfound : p.2.first_token_found = false := by rw [t1, hSe]; rfl
    obtain ⟨hfet, _⟩ := t5 hSe
    have htr : truthyTime (sseRemainder p).first_event_time = false := by
      rw [r3, hfet]; rfl
    rw [f3 (by rw [r2]; exact hfound) htr hRe, r1]
    exact t3 hfound

/-- C5 (amended): in SSE mode, for a 200 response consumed to completion
without a stream exception, `first_token_time` is assigned at most once —
a value set mid-stream is never reassigned and survives every continuation
of the stream into the final metric — and its source is exactly: when some
in-loop decoded event satisfies the trigger (configured name: effective
type equals it; unconfigured: truthy effective type), the clock reading
consumed while processing the first such event (reading index 3, the next
reading after the first decoded event consumed index 2 for
`first_event_time`); when in-loop events exist but none triggers, the
first in-loop event's arrival reading (index 2); when events came only
from the trailing remainder, the post-loop completion reading (also index
2, since the loop consumed none); and when no event was decoded at all,
`first_token_time` stays absent even if raw bytes arrived. -/
theorem sse_first_token_policy (cfg : RequestConfig) (rid : Nat)
    (body : String) (chunks : List (List Char)) (clk : Nat → Rat)
    (hfmt : cfg.stream_format = some "sse") (hclk : clk 2 ≠ 0) :
    (∀ (d1 d2 : List (List Char)) (v : Rat),
      (d1.foldl (sseChunkStep cfg.first_token_event clk)
        (([] : List Char), ({ } : SSELoopState))).2.ftt = some v →
      (make_request cfg rid (NetOutcome.response 200 body (d1 ++ d2) none)
        clk).first_token_time = some v) ∧
    ((chunks.foldl (sseChunkStep cfg.first_token_event clk)
        (([] : List Char), ({ } : SSELoopState))).2.events.any
        (eventMatches cfg.first_token_event) = true →
      (make_request cfg rid (NetOutcome.response 200 body chunks none)
        clk).first_token_time = some (clk 3)) ∧
    ((chunks.foldl (sseChunkStep cfg.first_token_event clk)
        (([] : List Char), ({ } : SSELoopState))).2.events.any
        (eventMatches cfg.first_token_event) = false →
      (chunks.foldl (sseChunkStep cfg.first_token_event clk)
        (([] : List Char), ({ } : SSELoopState))).2.events ≠ [] →
      (make_request cfg rid (NetOutcome.response 200 body chunks none)
        clk).first_token_time = some (clk 2)) ∧
    ((chunks.foldl (sseChunkStep cfg.first_token_event clk)
        (([] : List Char), ({ } : SSELoopState))).2.events = [] →
      (make_request cfg rid (NetOutcome.response 200 body chunks none)
        clk).events ≠ [] →
      (make_request cfg rid (NetOutcome.response 200 body chunks none)
        clk).first_token_time = some (clk 2)) ∧
    ((make_request cfg rid (NetOutcome.response 200 body chunks none)
        clk).events = [] →
      (make_request cfg rid (NetOutcome.response 200 body chunks none)
        clk).first_token_time = none) := by
  have hmr : ∀ (cs : List (List Char)),
      make_request cfg rid (NetOutcome.response 200 body cs none) clk
        = sseBranch cfg rid cs none clk := by
    intro cs
    simp only [make_request, ne_eq, not_true_eq_false, if_false, reduceIte]
    rw [if_pos hfmt]
  have hbrf : ∀ (cs : List (List Char)),
      (sseBranch cfg rid cs none clk).first_token_time
        = (sseFallback clk (sseRemainder
            (cs.foldl (sseChunkStep cfg.first_token_event clk)
              (([] : List Char), ({ } : SSELoopState))))).ftt :=
    fun _ => rfl
  have hbre : ∀ (cs : List (List Char)),
      (sseBranch cfg rid cs none clk).events
        = (sseFallback clk (sseRemainder
            (cs.foldl (sseChunkStep cfg.first_token_event clk)
              (([] : List Char), ({ } : SSELoopState))))).events :=
    fun _ => rfl
  obtain ⟨c1a, c2a, c3a, c4a⟩ := sse_policy_core cfg.first_token_event clk
    hclk
    (chunks.foldl (sseChunkStep cfg.first_token_event clk)
      (([] : List Char), ({ } : SSELoopState)))
    (foldl_sse_track cfg.first_token_event clk chunks _
      (sseTrack_init cfg.first_token_event clk))
  refine ⟨?_, ?_, ?_, ?_, ?_⟩
  · intro d1 d2 v hv
    obtain ⟨i1, _, _, _⟩ := foldl_sse_inv cfg.first_token_event clk d1
      (([] : List Char), ({ } : SSELoopState)) (sseInv_init clk)
    have hfound : (d1.foldl (sseChunkStep cfg.first_token_event clk)
        (([] : List Char), ({ } : SSELoopState))).2.first_token_found
          = true := by
      rw [← i1, hv]
      rfl
    have hfold := foldl_sse_frozen cfg.first_token_event clk v d2 _
      ⟨hv, hfound⟩
    rw [hmr (d1 ++ d2), hbrf (d1 ++ d2)]
    obtain ⟨r1, r2, _, _, _, _⟩ := sseRemainder_fields
      ((d1 ++ d2).foldl (sseChunkStep cfg.first_token_event clk)
        (([] : List Char), ({ } : SSELoopState)))
    obtain ⟨f1, _, _, _⟩ := sseFallback_cases clk
      (sseRemainder ((d1 ++ d2).foldl (sseChunkStep cfg.first_token_event
        clk) (([] : List Char), ({ } : SSELoopState))))
    have hffound : ((d1 ++ d2).foldl (sseChunkStep cfg.first_token_event
        clk) (([] : List Char), ({ } : SSELoopState))).2.first_token_found
          = true := by
      rw [List.foldl_append]
      exact hfold.2
    have hfftt : ((d1 ++ d2).foldl (sseChunkStep cfg.first_token_event clk)
        (([] : List Char), ({ } : SSELoopState))).2.ftt = some v := by
      rw [List.foldl_append]
      exact hfold.1
    rw [f1 (by rw [r2]; exact hffound), r1]
    exact hfftt
  · intro hm
    rw [hmr chunks, hbrf chunks]
    exact c1a hm
  · intro hm hne
    rw [hmr chunks, hbrf chunks]
    exact c2a hm hne
  · intro hSe hMe
    rw [hmr chunks, hbrf chunks]
    refine c3a hSe ?_
    rw [← hbre chunks, ← hmr chunks]
    exact hMe
  · intro hMe
    rw [hmr chunks, hbrf chunks]
    refine c4a ?_
    rw [← hbre chunks, ← hmr chunks]
    exact hMe

/-- C5 counterexample: three concrete streams against the original claim.
(1) Four raw bytes that decode to no SSE event complete without error, yet
`first_token_time` is absent — the claimed completion-time fallback does
not fire on raw bytes alone. (2) Unconfigured mode, an untyped event
followed by a typed one: `first_token_time` records the reading taken at
the second (typed) event, not the first arriving event's reading — so "the
first arriving event of any type" does not assign it. (3) A configured
name matching no event: no clause of the original applies (a name is
configured, and typed events did arrive), yet `first_token_time` is
assigned — from the first event's arrival reading. -/
theorem sse_ftt_fallback_counterexample :
    (make_request cfgSSE 1 (NetOutcome.response 200 "" [junkChunk] none)
      clkLin).first_token_time = none ∧
    (make_request cfgSSE 1 (NetOutcome.response 200 "" [junkChunk] none)
      clkLin).total_bytes = 4 ∧
    (make_request cfgSSE 1 (NetOutcome.response 200 "" [junkChunk] none)
      clkLin).error = none ∧
    (make_request cfgSSE 1 (NetOutcome.response 200 "" sseUntypedThenTyped
      none) clkC).events.length = 2 ∧
    (make_request cfgSSE 1 (NetOutcome.response 200 "" sseUntypedThenTyped
      none) clkC).first_token_time = some (clkC 3) ∧
    (make_request cfgSSE 1 (NetOutcome.response 200 "" sseUntypedThenTyped
      none) clkC).first_token_time ≠ some (clkC 2) ∧
    (make_request cfgSSEX 1 (NetOutcome.response 200 "" sseChunksOne none)
      clkC).events.any (eventMatches cfgSSEX.first_token_event) = false ∧
    (make_request cfgSSEX 1 (NetOutcome.response 200 "" sseChunksOne none)
      clkC).first_token_time = some (clkC 2) :=
  ⟨by decide, by decide, by decide, by decide, by decide, by decide,
   by decide, by decide⟩

/-- C5 witness: an unconfigured stream whose single decoded event is typed
(truthy), so the trigger fires and the policy theorem yields the reading
taken at the first matching event. -/
theorem sse_first_token_policy_witness :
    (sseChunksOne.foldl (sseChunkStep cfgSSE.first_token_event clkC)
      (([] : List Char), ({ } : SSELoopState))).2.events.any
      (eventMatches cfgSSE.first_token_event) = true ∧
    (make_request cfgSSE 1 (NetOutcome.response 200 "" sseChunksOne none)
      clkC).first_token_time = some (clkC 3) :=
  ⟨by decide,
   (sse_first_token_policy cfgSSE 1 "" sseChunksOne clkC rfl
     (by decide)).2.1 (by decide)⟩

theorem countP_set {α : Type} (p : α → Bool) :
    ∀ (l : List α) (i : Nat) (a b : α), l[i]? = some a →
      (l.set i b).countP p + (if p a then 1 else 0) =
        l.countP p + (if p b then 1 else 0) := by
  intro l
  induction l with
  | nil => intro i a b h; simp at h
  | cons x xs ih =>
      intro i a b h
      cases i with
      | zero =>
          simp only [List.getElem?_cons_zero, Option.some.injEq] at h
          subst h
          simp only [List.set_cons_zero, List.countP_cons]
          omega
      | succ n =>
          simp only [List.getElem?_cons_succ] at h
          simp only [List.set_cons_succ, List.countP_cons]
          have := ih n a b h
          omega

theorem runInv_init (N C : Nat) (hC : 0 < C) : RunInv N C (initState N C) := by
  refine ⟨?_, ?_, ?_, ⟨(List.range N).map (fun j => j + 1), C, ?_⟩, ?_⟩
  · show someCount _ + runningCount _ + _ = N
    unfold someCount runningCount initState
    have h1 : ((List.range N).map (fun j => some (j + 1)) ++
        List.replicate C (none : Option Nat)).countP Option.isSome = N := by
      rw [List.countP_append]
      have ha : ((List.range N).map (fun j => some (j + 1))).countP
          Option.isSome = N := by
        rw [List.countP_map]
        have hcomp : (Option.isSome ∘ fun j : Nat => some (j + 1)) =
            (fun _ : Nat => true) := rfl
        rw [hcomp, List.countP_true, List.length_range]
      have hb : (List.replicate C (none : Option Nat)).countP
          Option.isSome = 0 := by
        apply List.countP_eq_zero.mpr
        intro a ha
        rw [List.eq_of_mem_replicate ha]
        simp
      omega
    have h2 : (List.replicate C WStatus.start).countP isRunningW = 0 := by
      apply List.countP_eq_zero.mpr
      intro a ha
      rw [List.eq_of_mem_replicate ha]
      simp [isRunningW]
    simp only [h1, h2]
    rfl
  · show noneCount _ + finishedCount _ = C
    unfold noneCount finishedCount initState
    have h1 : ((List.range N).map (fun j => some (j + 1)) ++
        List.replicate C (none : Option Nat)).countP Option.isNone = C := by
      rw [List.countP_append]
      have ha : ((List.range N).map (fun j => some (j + 1))).countP
          Option.isNone = 0 := by
        rw [List.countP_map]
        apply List.countP_eq_zero.mpr
        intro a _
        simp [Function.comp]
      have hb : (List.replicate C (none : Option Nat)).countP
          Option.isNone = C := by
        have := List.countP_eq_length (p := Option.isNone)
          (l := List.replicate C (none : Option Nat))
        rw [List.length_replicate] at this
        apply this.mpr
        intro a ha
        rw [List.eq_of_mem_replicate ha]
        rfl
      omega
    have h2 : (List.replicate C WStatus.start).countP
        (fun w => w = WStatus.finished) = 0 := by
      apply List.countP_eq_zero.mpr
      intro a ha
      rw [List.eq_of_mem_replicate ha]
      simp
    simp only [h1, h2]
    omega
  · show (initState N C).ws.length = C
    unfold initState
    simp
  · show (initState N C).queue = _
    unfold initState
    simp [List.map_map]
  · intro hnone
    exfalso
    have : noneCount (initState N C).queue = C := by
      unfold noneCount initState
      rw [List.countP_append]
      have ha : ((List.range N).map (fun j => some (j + 1))).countP
          Option.isNone = 0 := by
        rw [List.countP_map]
        apply List.countP_eq_zero.mpr
        intro a _
        simp [Function.comp]
      have hb : (List.replicate C (none : Option Nat)).countP
          Option.isNone = C := by
        have := List.countP_eq_length (p := Option.isNone)
          (l := List.replicate C (none : Option Nat))
        rw [List.length_replicate] at this
        apply this.mpr
        intro a ha
        rw [List.eq_of_mem_replicate ha]
        rfl
      omega
    omega

theorem queueShape_cons_some (q : List (Option Nat)) (rid : Nat)
    (rest : List (Option Nat)) (hshape : queueShape q)
    (hq : q = some rid :: rest) : queueShape rest := by
  obtain ⟨ids, k, hq2⟩ := hshape
  cases ids with
  | nil =>
      rw [hq] at hq2
      cases k with
      | zero => simp at hq2
      | succ k' => rw [List.replicate_succ] at hq2; simp at hq2
  | cons a ids' =>
      rw [hq] at hq2
      simp only [List.map_cons, List.cons_append, List.cons.injEq] at hq2
      exact ⟨ids', k, hq2.2⟩

theorem queueShape_cons_none (q : List (Option Nat))
    (rest : List (Option Nat)) (hshape : queueShape q)
    (hq : q = none :: rest) : queueShape rest ∧ someCount q = 0 := by
  obtain ⟨ids, k, hq2⟩ := hshape
  cases ids with
  | nil =>
      rw [hq] at hq2
      simp only [List.map_nil, List.nil_append] at hq2
      cases k with
      | zero => simp at hq2
      | succ k' =>
          rw [List.replicate_succ] at hq2
          simp only [List.cons.injEq] at hq2
          constructor
          · exact ⟨[], k', by simpa using hq2.2⟩
          · unfold someCount
            rw [hq, hq2.2]
            apply List.countP_eq_zero.mpr
            intro a ha
            simp only [List.mem_cons] at ha
            rcases ha with ha | ha
            · simp [ha]
            · simp [List.eq_of_mem_replicate ha]
  | cons a ids' =>
      rw [hq] at hq2
      simp at hq2

theorem runStep_inv (exec : Nat → RequestMetrics) (N C : Nat)
    (s s' : RunState) (hstep : RunStep exec s s') (hinv : RunInv N C s) :
    RunInv N C s' := by
  obtain ⟨hN, hCc, hlen, hshape, hlast⟩ := hinv
  cases hstep with
  | acquire i h hs =>
      have hrun := countP_set isRunningW s.ws i WStatus.start
        WStatus.acquired h
      have hfin := countP_set (fun w => w = WStatus.finished) s.ws i
        WStatus.start WStatus.acquired h
      simp only [isRunningW, if_false, Nat.add_zero, decide_eq_true_eq,
        reduceCtorEq, reduceIte] at hrun hfin
      refine ⟨?_, ?_, ?_, hshape, hlast⟩
      · unfold someCount runningCount at hN ⊢
        dsimp only
        omega
      · unfold noneCount finishedCount at hCc ⊢
        dsimp only
        omega
      · dsimp only
        rw [List.length_set]
        exact hlen
  | getSome i rid rest h hq =>
      have hrun := countP_set isRunningW s.ws i WStatus.acquired
        (WStatus.running rid) h
      have hfin := countP_set (fun w => w = WStatus.finished) s.ws i
        WStatus.acquired (WStatus.running rid) h
      simp only [isRunningW, if_false, if_true, Nat.add_zero,
        decide_eq_true_eq, reduceCtorEq, reduceIte] at hrun hfin
      have hq_some : someCount s.queue = someCount rest + 1 := by
        unfold someCount
        rw [hq, List.countP_cons]
        simp
      have hq_none : noneCount s.queue = noneCount rest := by
        unfold noneCount
        rw [hq, List.countP_cons]
        simp
      refine ⟨?_, ?_, ?_, queueShape_cons_some s.queue rid rest hshape hq, ?_⟩
      · unfold someCount at hq_some
        unfold someCount runningCount at hN ⊢
        dsimp only
        omega
      · unfold noneCount at hq_none
        unfold noneCount finishedCount at hCc ⊢
        dsimp only
        omega
      · dsimp only
        rw [List.length_set]
        exact hlen
      · dsimp only
        intro hz
        exfalso
        have hz0 : noneCount s.queue = 0 := by
          unfold noneCount at hq_none hz ⊢
          omega
        have := hlast hz0
        unfold someCount at this hq_some
        omega
  | getNone i rest h hq =>
      have hrun := countP_set isRunningW s.ws i WStatus.acquired
        WStatus.finished h
      have hfin := countP_set (fun w => w = WStatus.finished) s.ws i
        WStatus.acquired WStatus.finished h
      simp only [isRunningW, if_false, if_true, Nat.add_zero,
        decide_eq_true_eq, reduceCtorEq, reduceIte] at hrun hfin
      obtain ⟨hshape', hs0⟩ := queueShape_cons_none s.queue rest hshape hq
      have hq_some : someCount s.queue = someCount rest := by
        unfold someCount
        rw [hq, List.countP_cons]
        simp
      have hq_none : noneCount s.queue = noneCount rest + 1 := by
        unfold noneCount
        rw [hq, List.countP_cons]
        simp
      refine ⟨?_, ?_, ?_, hshape', ?_⟩
      · unfold someCount at hq_some
        unfold someCount runningCount at hN ⊢
        dsimp only
        omega
      · unfold noneCount at hq_none
        unfold noneCount finishedCount at hCc ⊢
        dsimp only
        omega
      · dsimp only
        rw [List.length_set]
        exact hlen
      · dsimp only
        intro _
        unfold someCount at hq_some hs0 ⊢
        omega
  | complete i rid h =>
      have hrun := countP_set isRunningW s.ws i (WStatus.running rid)
        WStatus.start h
      have hfin := countP_set (fun w => w = WStatus.finished) s.ws i
        (WStatus.running rid) WStatus.start h
      simp only [isRunningW, if_false, if_true, Nat.add_zero,
        decide_eq_true_eq, reduceCtorEq, reduceIte] at hrun hfin
      refine ⟨?_, ?_, ?_, hshape, hlast⟩
      · unfold someCount runningCount at hN ⊢
        dsimp only
        rw [List.length_append]
        simp only [List.length_cons, List.length_nil]
        omega
      · unfold noneCount finishedCount at hCc ⊢
        dsimp only
        omega
      · dsimp only
        rw [List.length_set]
        exact hlen

theorem runInv_reachable (exec : Nat → RequestMetrics) (N C : Nat)
    (hC : 0 < C) (s : RunState)
    (h : Relation.ReflTransGen (RunStep exec) (initState N C) s) :
    RunInv N C s := by
  induction h with
  | refl => exact runInv_init N C hC
  | tail hab hbc ih => exact runStep_inv exec N C _ _ hbc ih

/-- C3: for every run with `total_requests = N ≥ 0` and positive
concurrency `C`, and for every interleaving of the workers (every
reachable state of the pool), once all workers have consumed their
sentinel and exited, the metrics list holds exactly `N` outcomes. -/
theorem run_collects_all_requests (exec : Nat → RequestMetrics) (N C : Nat)
    (s : RunState) (hC : 0 < C)
    (hreach : Relation.ReflTransGen (RunStep exec) (initState N C) s)
    (hfin : allFinished s) : s.metrics.length = N := by
  obtain ⟨hN, hCc, hlen, hshape, hlast⟩ := runInv_reachable exec N C hC s hreach
  have hfinc : finishedCount s.ws = C := by
    unfold finishedCount
    rw [← hlen]
    apply List.countP_eq_length.mpr
    intro w hw
    simp [hfin w hw]
  have hrun : runningCount s.ws = 0 := by
    unfold runningCount
    apply List.countP_eq_zero.mpr
    intro w hw
    rw [hfin w hw]
    simp [isRunningW]
  have hnone0 : noneCount s.queue = 0 := by omega
  have hsome0 : someCount s.queue = 0 := hlast hnone0
  omega

/-- C3 witness: a full concrete interleaving of a run with one request and
one worker, ending with the worker exited and exactly one outcome. -/
theorem run_collects_all_requests_witness :
    (0 : Nat) < 1 ∧ allFinished c3s5 ∧ c3s5.metrics.length = 1 := by
  have h01 : RunStep c3exec (initState 1 1) c3s1 :=
    RunStep.acquire (initState 1 1) 0 (by decide) (by decide)
  have h12 : RunStep c3exec c3s1 c3s2 :=
    RunStep.getSome c3s1 0 1 [none] (by decide) (by decide)
  have h23 : RunStep c3exec c3s2 c3s3 :=
    RunStep.complete c3s2 0 1 (by decide)
  have h34 : RunStep c3exec c3s3 c3s4 :=
    RunStep.acquire c3s3 0 (by decide) (by decide)
  have h45 : RunStep c3exec c3s4 c3s5 :=
    RunStep.getNone c3s4 0 [] (by decide) (by decide)
  have hreach : Relation.ReflTransGen (RunStep c3exec) (initState 1 1) c3s5 :=
    Relation.ReflTransGen.tail
      (Relation.ReflTransGen.tail
        (Relation.ReflTransGen.tail
          (Relation.ReflTransGen.tail
            (Relation.ReflTransGen.tail Relation.ReflTransGen.refl h01)
            h12) h23) h34) h45
  have hfin : allFinished c3s5 := by
    intro w hw
    simp only [c3s5] at hw
    simpa using hw
  exact ⟨Nat.one_pos, hfin,
    run_collects_all_requests c3exec 1 1 c3s5 Nat.one_pos hreach hfin⟩

/-- C6 witness: a 500 response with a plain-text body is terminal, its
error records the status, and streaming leaves no trace. -/
theorem non200_terminal_outcome_witness :
    (500 : Nat) ≠ 200 ∧
    (make_request cfgRaw 1 (NetOutcome.response 500 "boom" [['x']]
        (some PyExc.timeoutError)) clkLin).error =
      some (non200Error 500 "boom") ∧
    (make_request cfgRaw 1 (NetOutcome.response 500 "boom" [['x']]
        (some PyExc.timeoutError)) clkLin).first_token_time = none ∧
    (make_request cfgRaw 1 (NetOutcome.response 500 "boom" [['x']]
        (some PyExc.timeoutError)) clkLin).total_tokens = 0 ∧
    make_request cfgRaw 1 (NetOutcome.response 500 "boom" [['x']]
        (some PyExc.timeoutError)) clkLin =
      make_request cfgRaw 1 (NetOutcome.response 500 "boom" [] none) clkLin :=
  ⟨by decide,
   (non200_terminal_outcome cfgRaw 1 500 "boom" [['x']]
     (some PyExc.timeoutError) clkLin (by decide)).1,
   (non200_terminal_outcome cfgRaw 1 500 "boom" [['x']]
     (some PyExc.timeoutError) clkLin (by decide)).2.2.2.1,
   (non200_terminal_outcome cfgRaw 1 500 "boom" [['x']]
     (some PyExc.timeoutError) clkLin (by decide)).2.2.1,
   (non200_terminal_outcome cfgRaw 1 500 "boom" [['x']]
     (some PyExc.timeoutError) clkLin (by decide)).2.2.2.2.1⟩
